import Mathlib

/-!
Shallow embedding of the Kaleidoscope front-end (kal_lexer.py, kal_ops.py,
kal_ast.py, kal_parser.py, kal_ir.py, kal_eval.py) together with proofs
about the embedded functions.  Python dictionaries are modelled as
insertion-ordered association lists, Python exceptions as `Except` errors,
and the lazy generators as fuel-indexed recursions (the fuel only bounds
the number of loop iterations; every theorem either supplies enough fuel
for its concrete input or quantifies over all sufficient fuels).
-/

namespace Kaleidoscopy

/-! ## Python dict model

`dictGet`/`dictSet`/`dictDel` model `d.get(k)` / `d[k] = v` / `del d[k]` on
Python dicts represented as insertion-ordered association lists: lookup
finds the first binding, assignment replaces the first binding in place or
appends a fresh one, deletion removes the first binding. -/

def dictGet {V : Type} (k : String) : List (String × V) → Option V
  | [] => none
  | (a, v) :: t => if a = k then some v else dictGet k t

def dictSet {V : Type} (k : String) (v : V) : List (String × V) → List (String × V)
  | [] => [(k, v)]
  | (a, w) :: t => if a = k then (a, v) :: t else (a, w) :: dictSet k v t

def dictDel {V : Type} (k : String) : List (String × V) → List (String × V)
  | [] => []
  | (a, w) :: t => if a = k then t else (a, w) :: dictDel k t

/-! ## Lexer (kal_lexer.py) -/

inductive TokenType
  | EOF
  | DEF
  | EXTERN
  | IDENTIFIER
  | NUMBER
  | IF
  | THEN
  | ELSE
  | FOR
  | IN
  | VAR
  | BINARY
  | UNARY
  | OPERATOR
deriving DecidableEq, Repr

structure Token where
  type : TokenType
  value : String
deriving DecidableEq, Repr

/-- The `keywords` dict of kal_lexer.py. -/
def keywords : List (String × Token) :=
  [ ("def", ⟨TokenType.DEF, "def"⟩)
  , ("extern", ⟨TokenType.EXTERN, "extern"⟩)
  , ("if", ⟨TokenType.IF, "if"⟩)
  , ("then", ⟨TokenType.THEN, "then"⟩)
  , ("else", ⟨TokenType.ELSE, "else"⟩)
  , ("for", ⟨TokenType.FOR, "for"⟩)
  , ("in", ⟨TokenType.IN, "in"⟩)
  , ("var", ⟨TokenType.VAR, "var"⟩)
  , ("binary", ⟨TokenType.BINARY, "binary"⟩)
  , ("unary", ⟨TokenType.UNARY, "unary"⟩) ]

/-- Python `str.isspace()` restricted to the ASCII range (the repository's
sources and tests are ASCII). -/
def pyIsSpace (c : Char) : Bool :=
  c = ' ' || c = '\t' || c = '\n' || c = '\r' || c = '\x0b' || c = '\x0c'

/-- Python `str.isalpha()` restricted to the ASCII range: the letters.
(On non-ASCII input Python accepts further Unicode letters; all theorems
below use ASCII inputs.) -/
def pyIsAlpha (c : Char) : Bool :=
  ('a' ≤ c && c ≤ 'z') || ('A' ≤ c && c ≤ 'Z')

/-- Python `str.isdigit()` restricted to the ASCII range. -/
def pyIsDigit (c : Char) : Bool :=
  '0' ≤ c && c ≤ '9'

/-- Python `str.isalnum()` restricted to the ASCII range. -/
def pyIsAlnum (c : Char) : Bool :=
  pyIsAlpha c || pyIsDigit c

/-- Continuation test of the identifier loop: `isalnum() or == "_"`. -/
def isIdentCont (c : Char) : Bool :=
  pyIsAlnum c || c = '_'

/-- Continuation test of the number loop: `isdigit() or == "."`. -/
def isNumCont (c : Char) : Bool :=
  pyIsDigit c || c = '.'

/-- One `Lexer.tokens()` generator run over the remaining characters.
Each recursive step mirrors one iteration of the outer `while self.last_char`
loop: skip whitespace, then one of identifier/keyword, number, comment, or
single-character operator; at end of input a single EOF token.  `fuel`
bounds the number of loop iterations; since every iteration consumes at
least one character, any fuel exceeding the character count is enough. -/
def lexAux : Nat → List Char → List Token
  | 0, _ => []
  | _ + 1, [] => [⟨TokenType.EOF, ""⟩]
  | fuel + 1, c₀ :: cs₀ =>
    match (c₀ :: cs₀).dropWhile pyIsSpace with
    | [] => [⟨TokenType.EOF, ""⟩]
    | c :: cs =>
      if pyIsAlpha c then
        let idStr := String.mk ((c :: cs).takeWhile isIdentCont)
        let rest := (c :: cs).dropWhile isIdentCont
        (match dictGet idStr keywords with
          | some kw => kw
          | none => ⟨TokenType.IDENTIFIER, idStr⟩) :: lexAux fuel rest
      else if isNumCont c then
        let numStr := String.mk ((c :: cs).takeWhile isNumCont)
        let rest := (c :: cs).dropWhile isNumCont
        ⟨TokenType.NUMBER, numStr⟩ :: lexAux fuel rest
      else if c = '#' then
        lexAux fuel (cs.dropWhile fun d => d ≠ '\r' && d ≠ '\n')
      else
        ⟨TokenType.OPERATOR, String.mk [c]⟩ :: lexAux fuel cs

/-- `Lexer(source_code)` followed by `list(lexer.tokens())`.  The
constructor's `assert len(source_code) > 0` is modelled by `none`
(an `AssertionError`). -/
def tokens (s : String) : Option (List Token) :=
  if s.data = [] then none else some (lexAux (s.data.length + 1) s.data)

/-! ## Operator table (kal_ops.py) -/

inductive Associativity
  | NON
  | LEFT
  | RIGHT
deriving DecidableEq, Repr

structure OperatorInfo where
  associativity : Associativity
  precedence : Int
deriving DecidableEq, Repr

def DEFAULT_PRECEDENCE : Int := 30

/-- The initial contents of the mutable `operators` dict. -/
def operators : List (String × OperatorInfo) :=
  [ ("<", ⟨Associativity.LEFT, 10⟩)
  , ("+", ⟨Associativity.LEFT, 20⟩)
  , ("-", ⟨Associativity.LEFT, 20⟩)
  , ("*", ⟨Associativity.LEFT, 40⟩) ]

/-- The table is mutable global state; parser and emitter take its current
contents as an explicit argument. -/
abbrev OpTable := List (String × OperatorInfo)

def get_precedence (ops : OpTable) (op : String) : Int :=
  match dictGet op ops with
  | some info => info.precedence
  | none => -1

def get_associativity (ops : OpTable) (op : String) : Associativity :=
  match dictGet op ops with
  | some info => info.associativity
  | none => Associativity.NON

/-! ## AST (kal_ast.py) -/

inductive Expr
  | NumberExpr (val : String)
  | VarExpr (vars_init_list : List (String × Option Expr)) (body : Expr)
  | VariableExpr (name : String)
  | BinaryExpr (op : String) (lhs rhs : Expr)
  | UnaryExpr (op : String) (operand : Expr)
  | CallExpr (callee : String) (args : List Expr)
  | IfExpr (cond_expr then_expr else_expr : Expr)
  | ForExpr (id_name : String) (init_expr cond_expr : Expr)
      (step_expr : Option Expr) (body_expr : Expr)
deriving Repr

structure Prototype where
  name : String
  params : List String
  is_operator : Bool := false
  bin_op_precedence : Int := DEFAULT_PRECEDENCE
deriving Repr

structure Function where
  proto : Prototype
  body : Expr
deriving Repr

/-- `Prototype.is_anonymous`. -/
def Prototype.is_anonymous (p : Prototype) : Bool :=
  p.name.startsWith "_anon_fn"

/-- `Prototype.Anonymous`: the process-wide counter is threaded explicitly;
the count is incremented and then used to synthesize the name. -/
def Prototype.Anonymous (count : Nat) : Prototype × Nat :=
  (⟨"_anon_fn_" ++ toString (count + 1), [], false, DEFAULT_PRECEDENCE⟩, count + 1)

def Function.Anonymous (count : Nat) (body : Expr) : Function × Nat :=
  let (p, count') := Prototype.Anonymous count
  (⟨p, body⟩, count')

def Function.is_anonymous (f : Function) : Bool :=
  f.proto.is_anonymous

/-- Top-level nodes produced by the parser (`kal_ast.Node` instances handed
to the evaluator): prototypes ('extern') or functions ('def' and anonymous
top-level-expression wrappers). -/
inductive Node
  | proto (p : Prototype)
  | fn (f : Function)
deriving Repr

/-! ## Parser (kal_parser.py)

The parser keeps one token of lookahead (`curr_tok`) and pulls the rest of
the token iterator; each parse function below takes `(curr, rest)` and
returns the parsed value plus the new `(curr, rest)`.  `ParseError` and the
other exceptions the Python code can raise become `PError` values.  The
global operator table is passed in explicitly; the expression-level
functions only read it (the prototype parser for user-defined binary
operators also writes it and returns the updated table).  `fuel` bounds
recursion depth / loop iterations as in the lexer. -/

inductive PError
  | parseError (msg : String)
  | stopIteration
  | valueError (lexeme : String)
  | lexAssert
  | outOfFuel
deriving DecidableEq, Repr

/-- `__eat_tok`: `self.curr_tok = next(self.tokens)`; an exhausted iterator
raises `StopIteration`. -/
def eatTok (rest : List Token) : Except PError (Token × List Token) :=
  match rest with
  | [] => .error .stopIteration
  | t :: ts => .ok (t, ts)

/-- `__try_eat_tok(expected_type, expected_value)`. -/
def tryEatTok (expectedType : TokenType) (expectedValue : Option String)
    (curr : Token) (rest : List Token) : Except PError (Token × List Token) :=
  if expectedType ≠ curr.type then
    .error (.parseError ("Expected '" ++ reprStr expectedType ++ "'"))
  else if expectedType = TokenType.OPERATOR ∨ expectedValue.isSome then
    match expectedValue with
    | some v =>
      if curr.value ≠ v then
        .error (.parseError ("Expected '" ++ v ++ "' but got '" ++ curr.value ++ "'"))
      else eatTok rest
    | none =>
      -- `self.curr_tok.value != expected_value` with `expected_value = None`
      -- always holds for a string value.
      .error (.parseError ("Expected 'None' but got '" ++ curr.value ++ "'"))
  else eatTok rest

/-- `_parse_number_expr`. -/
def parseNumberExpr (curr : Token) (rest : List Token) :
    Except PError (Expr × Token × List Token) := do
  let (curr', rest') ← eatTok rest
  .ok (Expr.NumberExpr curr.value, curr', rest')

mutual

/-- `_parse_expression`: `expression ::= unary binoprhs`. -/
def parseExpression : Nat → OpTable → Token → List Token →
    Except PError (Expr × Token × List Token)
  | 0, _, _, _ => .error .outOfFuel
  | fuel + 1, ops, curr, rest => do
    let (lhs, curr, rest) ← parseUnary fuel ops curr rest
    parseBinOpRhs fuel ops 0 lhs curr rest

/-- `_parse_bin_op_rhs(expr_prec, lhs)`: the `while True` loop becomes a
recursive call with the same minimum precedence. -/
def parseBinOpRhs : Nat → OpTable → Int → Expr → Token → List Token →
    Except PError (Expr × Token × List Token)
  | 0, _, _, _, _, _ => .error .outOfFuel
  | fuel + 1, ops, exprPrec, lhs, curr, rest =>
    let currPrec := get_precedence ops curr.value
    if currPrec < exprPrec then .ok (lhs, curr, rest)
    else do
      let binOp := curr.value
      let (curr, rest) ← eatTok rest
      let (rhs, curr, rest) ← parseUnary fuel ops curr rest
      let nextPrec := get_precedence ops curr.value
      let (rhs, curr, rest) ←
        if currPrec < nextPrec then parseBinOpRhs fuel ops (currPrec + 1) rhs curr rest
        else .ok (rhs, curr, rest)
      parseBinOpRhs fuel ops exprPrec (Expr.BinaryExpr binOp lhs rhs) curr rest

/-- `_parse_unary`. -/
def parseUnary : Nat → OpTable → Token → List Token →
    Except PError (Expr × Token × List Token)
  | 0, _, _, _ => .error .outOfFuel
  | fuel + 1, ops, curr, rest =>
    if curr.type ≠ TokenType.OPERATOR ∨ curr.value = "(" ∨ curr.value = "," then
      parsePrimary fuel ops curr rest
    else do
      let unOp := curr.value
      let (curr, rest) ← eatTok rest
      let (operand, curr, rest) ← parseUnary fuel ops curr rest
      .ok (Expr.UnaryExpr unOp operand, curr, rest)

/-- `_parse_primary`: note the absence of a `TokenType.VAR` branch, exactly
as in the source. -/
def parsePrimary : Nat → OpTable → Token → List Token →
    Except PError (Expr × Token × List Token)
  | 0, _, _, _ => .error .outOfFuel
  | fuel + 1, ops, curr, rest =>
    if curr.type = TokenType.IDENTIFIER then
      parseIdentifierExpr fuel ops curr rest
    else if curr.type = TokenType.NUMBER then
      parseNumberExpr curr rest
    else if curr.type = TokenType.OPERATOR ∧ curr.value = "(" then
      parseParenExpr fuel ops curr rest
    else if curr.type = TokenType.IF then
      parseIfExpr fuel ops curr rest
    else if curr.type = TokenType.FOR then
      parseForExpr fuel ops curr rest
    else
      .error (.parseError
        ("Unknown token '" ++ curr.value ++ "' when expecting an expression"))

/-- `_parse_identifier_expr`. -/
def parseIdentifierExpr : Nat → OpTable → Token → List Token →
    Except PError (Expr × Token × List Token)
  | 0, _, _, _ => .error .outOfFuel
  | fuel + 1, ops, curr, rest => do
    let idName := curr.value
    let (curr, rest) ← eatTok rest
    if ¬(curr.type = TokenType.OPERATOR ∧ curr.value = "(") then
      .ok (Expr.VariableExpr idName, curr, rest)
    else do
      let (curr, rest) ← eatTok rest
      if curr.type = TokenType.OPERATOR ∧ curr.value = ")" then do
        let (curr, rest) ← eatTok rest
        .ok (Expr.CallExpr idName [], curr, rest)
      else do
        let (args, _curr, rest) ← parseCallArgs fuel ops [] curr rest
        let (curr, rest) ← eatTok rest
        .ok (Expr.CallExpr idName args, curr, rest)

/-- The `while True` argument loop inside `_parse_identifier_expr`
(accumulates into `args`). -/
def parseCallArgs : Nat → OpTable → List Expr → Token → List Token →
    Except PError (List Expr × Token × List Token)
  | 0, _, _, _, _ => .error .outOfFuel
  | fuel + 1, ops, args, curr, rest => do
    let (arg, curr, rest) ← parseExpression fuel ops curr rest
    let args := args ++ [arg]
    if curr.type = TokenType.OPERATOR ∧ curr.value = ")" then
      .ok (args, curr, rest)
    else do
      let (curr, rest) ← tryEatTok TokenType.OPERATOR (some ",") curr rest
      parseCallArgs fuel ops args curr rest

/-- `_parse_paren_expr`. -/
def parseParenExpr : Nat → OpTable → Token → List Token →
    Except PError (Expr × Token × List Token)
  | 0, _, _, _ => .error .outOfFuel
  | fuel + 1, ops, _, rest => do
    let (curr, rest) ← eatTok rest
    let (expr, curr, rest) ← parseExpression fuel ops curr rest
    let (curr, rest) ← tryEatTok TokenType.OPERATOR (some ")") curr rest
    .ok (expr, curr, rest)

/-- `_parse_if_expr`. -/
def parseIfExpr : Nat → OpTable → Token → List Token →
    Except PError (Expr × Token × List Token)
  | 0, _, _, _ => .error .outOfFuel
  | fuel + 1, ops, _, rest => do
    let (curr, rest) ← eatTok rest
    let (condExpr, curr, rest) ← parseExpression fuel ops curr rest
    let (curr, rest) ← tryEatTok TokenType.THEN (some "then") curr rest
    let (thenExpr, curr, rest) ← parseExpression fuel ops curr rest
    let (curr, rest) ← tryEatTok TokenType.ELSE (some "else") curr rest
    let (elseExpr, curr, rest) ← parseExpression fuel ops curr rest
    .ok (Expr.IfExpr condExpr thenExpr elseExpr, curr, rest)

/-- `_parse_for_expr`. -/
def parseForExpr : Nat → OpTable → Token → List Token →
    Except PError (Expr × Token × List Token)
  | 0, _, _, _ => .error .outOfFuel
  | fuel + 1, ops, _, rest => do
    let (curr, rest) ← eatTok rest
    let idName := curr.value
    let (curr, rest) ← tryEatTok TokenType.IDENTIFIER none curr rest
    let (curr, rest) ← tryEatTok TokenType.OPERATOR (some "=") curr rest
    let (initExpr, curr, rest) ← parseExpression fuel ops curr rest
    let (curr, rest) ← tryEatTok TokenType.OPERATOR (some ",") curr rest
    let (condExpr, curr, rest) ← parseExpression fuel ops curr rest
    let (stepExpr, curr, rest) ←
      if curr.type = TokenType.OPERATOR ∧ curr.value = "," then do
        let (curr, rest) ← eatTok rest
        let (stepExpr, curr, rest) ← parseExpression fuel ops curr rest
        pure (some stepExpr, curr, rest)
      else
        pure ((none : Option Expr), curr, rest)
    let (curr, rest) ← tryEatTok TokenType.IN none curr rest
    let (bodyExpr, curr, rest) ← parseExpression fuel ops curr rest
    .ok (Expr.ForExpr idName initExpr condExpr stepExpr bodyExpr, curr, rest)

end

/-- Python `int()` on a token lexeme: success exactly on nonempty all-digit
strings (number lexemes contain only digits and dots); otherwise a
`ValueError`.  (Signs and whitespace cannot occur in a NUMBER lexeme.) -/
def pyInt (s : String) : Option Int :=
  if s.data ≠ [] ∧ s.data.all pyIsDigit then some (s.toNat!) else none

/-- The identifier-collection loop of `__parse_prototype_params`. -/
def collectParams : Nat → List String → Token → List Token →
    Except PError (List String × Token × List Token)
  | 0, _, _, _ => .error .outOfFuel
  | fuel + 1, params, curr, rest =>
    if curr.type = TokenType.IDENTIFIER then do
      let (curr', rest') ← eatTok rest
      collectParams fuel (params ++ [curr.value]) curr' rest'
    else .ok (params, curr, rest)

/-- `__parse_prototype_params`. -/
def parsePrototypeParams (fuel : Nat) (curr : Token) (rest : List Token) :
    Except PError (List String × Token × List Token) := do
  let (curr, rest) ← tryEatTok TokenType.OPERATOR (some "(") curr rest
  let (params, curr, rest) ← collectParams fuel [] curr rest
  let (curr, rest) ← tryEatTok TokenType.OPERATOR (some ")") curr rest
  .ok (params, curr, rest)

/-- `__parse_prototype_for_user_def_bin_op`; installs the new operator into
the table (returned updated) before reading the parameter list. -/
def parsePrototypeBinOp (fuel : Nat) (ops : OpTable) (_curr : Token)
    (rest : List Token) :
    Except PError (Prototype × OpTable × Token × List Token) := do
  let (curr, rest) ← eatTok rest
  if curr.type ≠ TokenType.OPERATOR then
    .error (.parseError "Expected operator after 'binary'")
  else do
    let fnName := "binary" ++ curr.value
    let (curr, rest) ← eatTok rest
    let (precedence, curr, rest) ←
      if curr.type = TokenType.NUMBER then
        match pyInt curr.value with
        | none => .error (.valueError curr.value)
        | some p =>
          if ¬(1 ≤ p ∧ p ≤ 100) then
            .error (.parseError
              ("Invalid precedence: " ++ toString p ++ " (must be 1..100)"))
          else do
            let (curr, rest) ← eatTok rest
            pure (p, curr, rest)
      else pure (DEFAULT_PRECEDENCE, curr, rest)
    let ops := dictSet (String.mk [fnName.back]) ⟨Associativity.NON, precedence⟩ ops
    let (params, curr, rest) ← parsePrototypeParams fuel curr rest
    if params.length ≠ 2 then
      .error (.parseError "Expected binary operator to have two operands")
    else
      .ok (⟨fnName, params, true, precedence⟩, ops, curr, rest)

/-- `__parse_prototype_for_user_def_un_op`. -/
def parsePrototypeUnOp (fuel : Nat) (_curr : Token) (rest : List Token) :
    Except PError (Prototype × Token × List Token) := do
  let (curr, rest) ← eatTok rest
  if curr.type ≠ TokenType.OPERATOR then
    .error (.parseError "Expected operator after 'unary'")
  else do
    let fnName := "unary" ++ curr.value
    let (curr, rest) ← eatTok rest
    let (params, curr, rest) ← parsePrototypeParams fuel curr rest
    if params.length ≠ 1 then
      .error (.parseError "Expected unary operator to have one operand")
    else
      .ok (⟨fnName, params, true, DEFAULT_PRECEDENCE⟩, curr, rest)

/-- `_parse_prototype`. -/
def parsePrototype (fuel : Nat) (ops : OpTable) (curr : Token)
    (rest : List Token) :
    Except PError (Prototype × OpTable × Token × List Token) :=
  if curr.type = TokenType.IDENTIFIER then do
    let fnName := curr.value
    let (curr, rest) ← eatTok rest
    let (params, curr, rest) ← parsePrototypeParams fuel curr rest
    .ok (⟨fnName, params, false, DEFAULT_PRECEDENCE⟩, ops, curr, rest)
  else if curr.type = TokenType.BINARY then
    parsePrototypeBinOp fuel ops curr rest
  else if curr.type = TokenType.UNARY then do
    let (p, curr, rest) ← parsePrototypeUnOp fuel curr rest
    .ok (p, ops, curr, rest)
  else
    .error (.parseError "Expected function name in prototype")

/-- `_parse_definition`. -/
def parseDefinition (fuel : Nat) (ops : OpTable) (_curr : Token)
    (rest : List Token) :
    Except PError (Function × OpTable × Token × List Token) := do
  let (curr, rest) ← eatTok rest
  let (proto, ops, curr, rest) ← parsePrototype fuel ops curr rest
  let (expr, curr, rest) ← parseExpression fuel ops curr rest
  .ok (⟨proto, expr⟩, ops, curr, rest)

/-- `_parse_external`. -/
def parseExternal (fuel : Nat) (ops : OpTable) (_curr : Token)
    (rest : List Token) :
    Except PError (Prototype × OpTable × Token × List Token) := do
  let (curr, rest) ← eatTok rest
  parsePrototype fuel ops curr rest

/-- `_parse_top_level`: `none` for an ignored top-level `';'`. -/
def parseTopLevel (fuel : Nat) (ops : OpTable) (anonCount : Nat)
    (curr : Token) (rest : List Token) :
    Except PError (Option Node × OpTable × Nat × Token × List Token) :=
  if curr.type = TokenType.OPERATOR ∧ curr.value = ";" then do
    let (curr, rest) ← eatTok rest
    .ok (none, ops, anonCount, curr, rest)
  else if curr.type = TokenType.DEF then do
    let (f, ops, curr, rest) ← parseDefinition fuel ops curr rest
    .ok (some (Node.fn f), ops, anonCount, curr, rest)
  else if curr.type = TokenType.EXTERN then do
    let (p, ops, curr, rest) ← parseExternal fuel ops curr rest
    .ok (some (Node.proto p), ops, anonCount, curr, rest)
  else do
    let (expr, curr, rest) ← parseExpression fuel ops curr rest
    let (f, anonCount) := Function.Anonymous anonCount expr
    .ok (some (Node.fn f), ops, anonCount, curr, rest)

/-- The `while self.curr_tok.type != TokenType.EOF` loop of
`Parser.parse`, collecting every yielded node. -/
def parseNodes : Nat → OpTable → Nat → Token → List Token →
    Except PError (List Node × OpTable × Nat)
  | 0, _, _, _, _ => .error .outOfFuel
  | fuel + 1, ops, anonCount, curr, rest =>
    if curr.type = TokenType.EOF then .ok ([], ops, anonCount)
    else do
      let (node?, ops, anonCount, curr, rest) ←
        parseTopLevel fuel ops anonCount curr rest
      let (nodes, ops, anonCount) ← parseNodes fuel ops anonCount curr rest
      match node? with
      | some n => .ok (n :: nodes, ops, anonCount)
      | none => .ok (nodes, ops, anonCount)

/-- `list(Parser().parse(source_code))`: lex, read the first token into the
lookahead, then run the top-level loop.  An empty source fails the lexer's
constructor assertion. -/
def parseProgram (fuel : Nat) (ops : OpTable) (anonCount : Nat)
    (source : String) : Except PError (List Node × OpTable × Nat) :=
  match tokens source with
  | none => .error .lexAssert
  | some [] => .error .stopIteration
  | some (curr :: rest) => parseNodes fuel ops anonCount curr rest

/-! ## IR emitter (kal_ir.py)

The llvmlite objects are modelled just deeply enough for the state the
emitter manipulates: an IR value is a constant, a function argument, an
alloca, or some other instruction result; instruction ids are drawn from a
fresh counter (`CGState.fresh`) standing for the builder emitting a new
instruction.  `module.globals` maps names to function records (name
collisions with non-function globals cannot arise in this program, but the
`isinstance` check is kept as the `isFunction` field).  Instruction lists,
basic blocks and branch targets carry no information any theorem needs and
are not tracked; builder calls that produce no value (`store`, `branch`,
`cbranch`, `position_at_start`, block creation) leave the state unchanged.
Python exceptions are the `EmitErr` constructors: `generateCodeError` for
the structured `GenerateCodeError` raises, `keyError` for a failing dict
subscript, `valueError` for a failing `float()`, `assertionError` for a
failing `assert`. -/

inductive Value
  | const (lexeme : String)
  | arg (fn : String) (idx : Nat)
  | alloca (id : Nat)
  | instr (id : Nat)
deriving DecidableEq, Repr

structure GlobalFn where
  isFunction : Bool
  arity : Nat
  isDeclaration : Bool
deriving DecidableEq, Repr

structure CGState where
  globals : List (String × GlobalFn)
  symtab : List (String × Value)
  fresh : Nat
deriving DecidableEq, Repr

inductive EmitErr
  | generateCodeError (msg : String)
  | keyError (key : String)
  | valueError (lexeme : String)
  | assertionError
  | outOfFuel
deriving DecidableEq, Repr

/-- Python `float()` on a NUMBER lexeme (a string of digits and dots, as
produced by the lexer): valid exactly when it has at least one digit, at
most one dot, and nothing else. -/
def pyFloatValid (s : String) : Bool :=
  s.data.any pyIsDigit && s.data.count '.' ≤ 1 &&
    s.data.all fun c => pyIsDigit c || c = '.'

/-- `__create_entry_block_alloca`: a fresh stack slot. -/
def createEntryBlockAlloca (st : CGState) : Value × CGState :=
  (Value.alloca st.fresh, { st with fresh := st.fresh + 1 })

/-- A builder call that yields a fresh instruction value (load, fadd, fsub,
fmul, fcmp, uitofp, call, phi). -/
def freshInstr (st : CGState) : Value × CGState :=
  (Value.instr st.fresh, { st with fresh := st.fresh + 1 })

/-- The restore loop of `_visit_VarExpr`: in order of the bindings, put the
shadowed value back or delete the name. -/
def restoreBindings : List (String × Option Expr) → List (Option Value) →
    List (String × Value) → List (String × Value)
  | [], _, symtab => symtab
  | _, [], symtab => symtab
  | (name, _) :: rest, old :: olds, symtab =>
    match old with
    | some v => restoreBindings rest olds (dictSet name v symtab)
    | none => restoreBindings rest olds (dictDel name symtab)

mutual

/-- `LLVMCodeGenerator._visit(node)` for expression nodes: one case per
`_visit_<Node>` method of kal_ir.py. -/
def emitExpr : Nat → OpTable → Expr → CGState → Except EmitErr (Value × CGState)
  | 0, _, _, _ => .error .outOfFuel
  | _ + 1, _, Expr.NumberExpr val, st =>
    -- _visit_NumberExpr: `ir.Constant(ir.DoubleType(), float(node.val))`
    if pyFloatValid val then .ok (Value.const val, st)
    else .error (.valueError val)
  | _ + 1, _, Expr.VariableExpr name, st =>
    -- _visit_VariableExpr
    match dictGet name st.symtab with
    | some _ => .ok (freshInstr st)
    | none => .error (.generateCodeError ("Unknown variable name '" ++ name ++ "'"))
  | fuel + 1, ops, Expr.BinaryExpr op lhs rhs, st =>
    -- _visit_BinaryExpr, with assignment handled first as in
    -- __visit_BinaryExpr_for_assignment
    if op = "=" then
      match lhs with
      | Expr.VariableExpr lhsName => do
        let (rhsVal, st) ← emitExpr fuel ops rhs st
        match dictGet lhsName st.symtab with
        | none => .error (.keyError lhsName)
        | some _ => .ok (rhsVal, st)  -- store, then yield the stored value
      | _ => .error (.generateCodeError
          "The LHS of the assignment operator '=' must be a variable")
    else do
      let (_, st) ← emitExpr fuel ops lhs st
      let (_, st) ← emitExpr fuel ops rhs st
      if op = "+" ∨ op = "-" ∨ op = "*" then .ok (freshInstr st)
      else if op = "<" then
        let (_, st) := freshInstr st   -- fcmp_unordered
        .ok (freshInstr st)            -- uitofp
      else if (dictGet op ops).isNone then
        .error (.generateCodeError ("Unknown binary operator '" ++ op ++ "'"))
      else
        -- `self.module.globals[f"binary{node.op}"]` (a plain subscript)
        match dictGet ("binary" ++ op) st.globals with
        | none => .error (.keyError ("binary" ++ op))
        | some _ => .ok (freshInstr st)
  | fuel + 1, ops, Expr.UnaryExpr op operand, st => do
    -- _visit_UnaryExpr
    let (_, st) ← emitExpr fuel ops operand st
    match dictGet ("unary" ++ op) st.globals with
    | some _ => .ok (freshInstr st)
    | none => .error (.generateCodeError ("Unknown unary operator '" ++ op ++ "'"))
  | fuel + 1, ops, Expr.IfExpr condE thenE elseE, st => do
    -- _visit_IfExpr
    let (_, st) ← emitExpr fuel ops condE st
    let (_, st) := freshInstr st       -- fcmp_ordered
    let (_, st) ← emitExpr fuel ops thenE st
    let (_, st) ← emitExpr fuel ops elseE st
    .ok (freshInstr st)                -- phi
  | fuel + 1, ops, Expr.ForExpr idName initE condE stepE bodyE, st => do
    -- _visit_ForExpr
    let (loopVarAddr, st) := createEntryBlockAlloca st
    let (_, st) ← emitExpr fuel ops initE st
    let oldValue := dictGet idName st.symtab
    let st := { st with symtab := dictSet idName loopVarAddr st.symtab }
    let (_, st) ← emitExpr fuel ops bodyE st
    let (_, st) ←
      match stepE with
      | none => .ok (Value.const "1.0", st)
      | some e => emitExpr fuel ops e st
    let (_, st) ← emitExpr fuel ops condE st
    let (_, st) := freshInstr st       -- fcmp_ordered
    let (_, st) := freshInstr st       -- load
    let (_, st) := freshInstr st       -- fadd
    let st :=
      match oldValue with
      | none => { st with symtab := dictDel idName st.symtab }
      | some v => { st with symtab := dictSet idName v st.symtab }
    .ok (Value.const "0.0", st)
  | fuel + 1, ops, Expr.VarExpr varsInitList body, st => do
    -- _visit_VarExpr
    let (oldBindings, st) ← emitBindings fuel ops varsInitList st
    let (bodyVal, st) ← emitExpr fuel ops body st
    let st := { st with symtab := restoreBindings varsInitList oldBindings st.symtab }
    .ok (bodyVal, st)
  | fuel + 1, ops, Expr.CallExpr callee args, st =>
    -- _visit_CallExpr
    match dictGet callee st.globals with
    | none => .error (.generateCodeError ("Call to unknown function '" ++ callee ++ "'"))
    | some calleeFn =>
      if ¬calleeFn.isFunction then
        .error (.generateCodeError ("Call to unknown function '" ++ callee ++ "'"))
      else if calleeFn.arity ≠ args.length then
        .error (.generateCodeError ("Call argument length mismatch for '" ++ callee ++ "'"))
      else do
        let (_, st) ← emitExprList fuel ops args st
        .ok (freshInstr st)

/-- The call-argument list comprehension of `_visit_CallExpr`. -/
def emitExprList : Nat → OpTable → List Expr → CGState →
    Except EmitErr (List Value × CGState)
  | 0, _, _, _ => .error .outOfFuel
  | _ + 1, _, [], st => .ok ([], st)
  | fuel + 1, ops, e :: es, st => do
    let (v, st) ← emitExpr fuel ops e st
    let (vs, st) ← emitExprList fuel ops es st
    .ok (v :: vs, st)

/-- The binding loop of `_visit_VarExpr`: emit each initializer (0.0 when
omitted), allocate and store a slot, record the shadowed binding, install
the new one; returns `old_bindings` in order. -/
def emitBindings : Nat → OpTable → List (String × Option Expr) → CGState →
    Except EmitErr (List (Option Value) × CGState)
  | 0, _, _, _ => .error .outOfFuel
  | _ + 1, _, [], st => .ok ([], st)
  | fuel + 1, ops, (name, init) :: rest, st => do
    let (_, st) ←
      match init with
      | some e => emitExpr fuel ops e st
      | none => .ok (Value.const "0.0", st)
    let (varAddr, st) := createEntryBlockAlloca st
    let oldBinding := dictGet name st.symtab
    let st := { st with symtab := dictSet name varAddr st.symtab }
    let (oldBindings, st) ← emitBindings fuel ops rest st
    .ok (oldBinding :: oldBindings, st)

end

/-- The parameter-naming loop in the new-function branch of
`_visit_Prototype`: `self.symtab[arg.name] = arg` for each parameter. -/
def recordProtoArgs (fnName : String) : List String → Nat →
    List (String × Value) → List (String × Value)
  | [], _, symtab => symtab
  | p :: rest, idx, symtab =>
    recordProtoArgs fnName rest (idx + 1) (dictSet p (Value.arg fnName idx) symtab)

/-- `_visit_Prototype`.  Returns the function's name (standing for the
`ir.Function` returned by the Python code) and the updated state. -/
def emitPrototype (node : Prototype) (st : CGState) :
    Except EmitErr (String × CGState) :=
  let fnName := node.name
  match dictGet fnName st.globals with
  | some fn =>
    if ¬fn.isFunction then
      .error (.generateCodeError ("Function/global name collision '" ++ fnName ++ "'"))
    else if ¬fn.isDeclaration then
      .error (.generateCodeError ("Redefinition of '" ++ fnName ++ "'"))
    else if fn.arity ≠ node.params.length then
      .error (.generateCodeError
        ("Definition of '" ++ fnName ++ "' with wrong argument count"))
    else .ok (fnName, st)
  | none =>
    let st := { st with
      globals := dictSet fnName ⟨true, node.params.length, true⟩ st.globals }
    let st := { st with symtab := recordProtoArgs fnName node.params 0 st.symtab }
    .ok (fnName, st)

/-- The argument-slot loop of `_visit_Function`: for each parameter,
allocate a slot, store the argument, `assert arg.name not in self.symtab`,
then record the slot. -/
def recordFnArgs : List String → CGState → Except EmitErr CGState
  | [], st => .ok st
  | p :: rest, st =>
    let (argAddr, st) := createEntryBlockAlloca st
    if (dictGet p st.symtab).isSome then .error .assertionError
    else recordFnArgs rest { st with symtab := dictSet p argAddr st.symtab }

/-- `_visit_Function`.  Giving the function a body marks it defined
(`is_declaration` becomes false once the entry block is appended). -/
def emitFunction (fuel : Nat) (ops : OpTable) (node : Function) (st : CGState) :
    Except EmitErr (String × CGState) := do
  let st := { st with symtab := [] }
  let (fnName, st) ← emitPrototype node.proto st
  let st := { st with
    globals := dictSet fnName ⟨true, node.proto.params.length, false⟩ st.globals }
  let st ← recordFnArgs node.proto.params st
  let (_, st) ← emitExpr fuel ops node.body st
  .ok (fnName, st)

/-- `generate_code(node)`: dispatch on `Prototype` / `Function`. -/
def generateCode (fuel : Nat) (ops : OpTable) (node : Node) (st : CGState) :
    Except EmitErr CGState :=
  match node with
  | Node.proto p => (emitPrototype p st).map fun (_, st) => st
  | Node.fn f => (emitFunction fuel ops f st).map fun (_, st) => st

/-! ## Evaluator (kal_eval.py)

The LLVM backend steps of `_eval_ast` (`parse_assembly`, `verify`, the
optimization passes, MCJIT execution) are external library calls; they are
modelled as succeeding without touching the evaluator's state, and the
`value` field of an `EvalResult` is modelled by its kind: the AST/IR dumps
are strings, definitions and externs yield `None`, and a JIT-executed
anonymous wrapper yields a double. -/

structure Options where
  optimize : Bool := true
  llvmdump : Bool := false
  noexec : Bool := false
  parseonly : Bool := false
  verbose : Bool := false
deriving DecidableEq, Repr

inductive EvalValueKind
  | str
  | null
  | double
deriving DecidableEq, Repr

/-- `not (isinstance(ast, kal_ast.Function) and ast.is_anonymous())`. -/
def isDefOrExtern (ast : Node) : Bool :=
  match ast with
  | Node.fn f => ¬f.is_anonymous
  | Node.proto _ => true

/-- `_eval_ast(ast, **options)`, with the result's `value` field replaced by
its kind. -/
def evalAst (fuel : Nat) (ops : OpTable) (ast : Node) (opts : Options)
    (st : CGState) : Except EmitErr (EvalValueKind × CGState) :=
  if opts.parseonly then .ok (EvalValueKind.str, st)  -- value = str(ast)
  else do
    let st ← generateCode fuel ops ast st
    if opts.noexec then .ok (EvalValueKind.str, st)   -- value = raw_ir
    else if isDefOrExtern ast ∧ ¬opts.optimize then .ok (EvalValueKind.null, st)
    else
      -- parse_assembly / verify / optimization passes: external, no
      -- evaluator state change
      if isDefOrExtern ast then .ok (EvalValueKind.null, st)
      else .ok (EvalValueKind.double, st)  -- MCJIT result, a C double

/-- The module contents right after `LLVMCodeGenerator()` plus
`__add_built_ins()`: a declaration of `putchar` and a definition of
`putchard` (whose body consumes two instruction values). -/
def builtInsState : CGState :=
  { globals :=
      [ ("putchar", ⟨true, 1, true⟩)
      , ("putchard", ⟨true, 1, false⟩) ]
  , symtab := []
  , fresh := 2 }

/-- The history-replay loop of `reset`: `self._eval_ast(ast)` with default
options for each recorded node; a `GenerateCodeError` makes `reset` return
`False` (leaving the partially rebuilt module), any other exception
propagates. -/
def replayHistory (fuel : Nat) (ops : OpTable) :
    List Node → CGState → Except EmitErr (Bool × OpTable × CGState)
  | [], st => .ok (true, ops, st)
  | ast :: rest, st =>
    match evalAst fuel ops ast {} st with
    | .ok (_, st) => replayHistory fuel ops rest st
    | .error (.generateCodeError _) => .ok (false, ops, st)
    | .error e => .error e

/-- `reset(history)`: a fresh code generator with built-ins, then replay.
The operator table is global state that `reset` does not touch; it is
threaded through unchanged. -/
def reset (fuel : Nat) (ops : OpTable) (history : Option (List Node)) :
    Except EmitErr (Bool × OpTable × CGState) :=
  match history with
  | none => .ok (true, ops, builtInsState)
  | some h => replayHistory fuel ops h builtInsState

/-- The first-node loop driving `eval_expr`'s single `next()`: parse
top-level constructs until one yields a node (bare `';'` yields none); at
EOF the generator is exhausted and `next()` raises `StopIteration`. -/
def parseFirstNode : Nat → OpTable → Nat → Token → List Token →
    Except PError (Node × OpTable × Nat × Token × List Token)
  | 0, _, _, _, _ => .error .outOfFuel
  | fuel + 1, ops, anonCount, curr, rest =>
    if curr.type = TokenType.EOF then .error .stopIteration
    else do
      let (node?, ops, anonCount, curr, rest) ←
        parseTopLevel fuel ops anonCount curr rest
      match node? with
      | some n => .ok (n, ops, anonCount, curr, rest)
      | none => parseFirstNode fuel ops anonCount curr rest

inductive EvalErr
  | parse (e : PError)
  | emit (e : EmitErr)
deriving DecidableEq, Repr

/-- `eval_expr(kal_code, options)`: value (kind) of the first top-level
result of `eval`, which lazily parses one construct and evaluates it. -/
def evalExpr (fuel : Nat) (ops : OpTable) (anonCount : Nat) (st : CGState)
    (kalCode : String) (opts : Options) : Except EvalErr EvalValueKind :=
  match tokens kalCode with
  | none => .error (.parse .lexAssert)
  | some [] => .error (.parse .stopIteration)
  | some (curr :: rest) =>
    match parseFirstNode fuel ops anonCount curr rest with
    | .error e => .error (.parse e)
    | .ok (node, ops, _, _, _) =>
      match evalAst fuel ops node opts st with
      | .error e => .error (.emit e)
      | .ok (k, _) => .ok k

/-! ## Theorems -/

/-- C1: a primary expression beginning with the `var` keyword is claimed to
parse into a VarIn node; in fact `_parse_primary` has no `VAR` branch, so
the parser raises `ParseError` on `var t = 1 in y` (the lexer does produce
the `VAR` keyword token, and the AST and IR emitter do support `VarExpr`,
so the parser branch is the missing piece). -/
theorem c1_parser_rejects_var :
    parseProgram 32 operators 0 "var t = 1 in y" =
      .error (.parseError "Unknown token 'var' when expecting an expression") ∧
    tokens "var" = some [⟨TokenType.VAR, "var"⟩, ⟨TokenType.EOF, ""⟩] :=
  ⟨rfl, rfl⟩

/-- C2: the startup operator table is claimed to contain `=` with
precedence 2 and right associativity, making `x = y = z` parse
right-nested; in fact the table contains only `<`, `+`, `-`, `*`, the
precedence of `=` is the non-operator value −1, and `x = y = z` parses as
three top-level constructs (`Variable x`, then two unary-`=` wrappers),
not as a `Binary` tree at all. -/
theorem c2_assignment_not_in_operator_table :
    dictGet "=" operators = none ∧
    get_precedence operators "=" = -1 ∧
    parseProgram 32 operators 0 "x = y = z" =
      .ok ( [ Node.fn ⟨⟨"_anon_fn_1", [], false, 30⟩, Expr.VariableExpr "x"⟩
            , Node.fn ⟨⟨"_anon_fn_2", [], false, 30⟩,
                Expr.UnaryExpr "=" (Expr.VariableExpr "y")⟩
            , Node.fn ⟨⟨"_anon_fn_3", [], false, 30⟩,
                Expr.UnaryExpr "=" (Expr.VariableExpr "z")⟩ ]
          , operators, 3) :=
  ⟨rfl, rfl, rfl⟩

/-- C3 counterexample: not every emission failure is a structured
`GenerateCodeError`: emitting an assignment whose left-hand variable is
not in scope fails with a Python `KeyError` (from `self.symtab[...]`), and
emitting the number literal `1.2.3` fails with a `ValueError` (from
`float()`). -/
theorem c3_unstructured_failure_counterexample :
    emitExpr 32 operators
        (Expr.BinaryExpr "=" (Expr.VariableExpr "x") (Expr.NumberExpr "1"))
        builtInsState =
      .error (.keyError "x") ∧
    emitExpr 32 operators (Expr.NumberExpr "1.2.3") builtInsState =
      .error (.valueError "1.2.3") :=
  ⟨rfl, rfl⟩

/-- C4: prototype emission is claimed to leave the symbol table unchanged;
in fact, for a name not yet in the module, `_visit_Prototype` inserts one
symbol-table entry per parameter (mapping it to the raw `ir.Argument`), and
consequently `_visit_Function` of a new two-parameter definition trips its
`assert arg.name not in self.symtab`. -/
theorem c4_prototype_populates_symtab :
    emitPrototype ⟨"adder", ["x", "y"], false, 30⟩ builtInsState =
      .ok ("adder",
        { globals := dictSet "adder" ⟨true, 2, true⟩ builtInsState.globals
        , symtab := [("x", Value.arg "adder" 0), ("y", Value.arg "adder" 1)]
        , fresh := 2 }) ∧
    [("x", Value.arg "adder" 0), ("y", Value.arg "adder" 1)] ≠
      builtInsState.symtab ∧
    emitFunction 32 operators
        ⟨⟨"adder", ["x", "y"], false, 30⟩,
          Expr.BinaryExpr "+" (Expr.VariableExpr "x") (Expr.VariableExpr "y")⟩
        builtInsState =
      .error .assertionError :=
  ⟨rfl, by decide, rfl⟩

/-! ### Scope-restoration machinery for C5 -/

mutual

/-- Every `VarExpr` node in the expression introduces pairwise-distinct
names (the condition under which the forward-order restore loop of
`_visit_VarExpr` is an exact inverse of the binding loop). -/
def cleanVars : Expr → Bool
  | .NumberExpr _ => true
  | .VariableExpr _ => true
  | .BinaryExpr _ l r => cleanVars l && cleanVars r
  | .UnaryExpr _ o => cleanVars o
  | .CallExpr _ args => cleanVarsList args
  | .IfExpr c t e => cleanVars c && cleanVars t && cleanVars e
  | .ForExpr _ i c s b => cleanVars i && cleanVars c && cleanVarsOpt s && cleanVars b
  | .VarExpr binds body =>
    decide (binds.map Prod.fst).Nodup && cleanVarsBinds binds && cleanVars body

def cleanVarsOpt : Option Expr → Bool
  | none => true
  | some e => cleanVars e

def cleanVarsList : List Expr → Bool
  | [] => true
  | e :: es => cleanVars e && cleanVarsList es

def cleanVarsBinds : List (String × Option Expr) → Bool
  | [] => true
  | (_, i) :: bs => cleanVarsOpt i && cleanVarsBinds bs

end

theorem dictGet_set_self {V : Type} (k : String) (v : V) :
    ∀ l, dictGet k (dictSet k v l) = some v := by
  intro l
  induction l with
  | nil => simp [dictGet, dictSet]
  | cons p t ih =>
    obtain ⟨a, w⟩ := p
    by_cases ha : a = k
    · simp [dictGet, dictSet, ha]
    · simp [dictGet, dictSet, ha, ih]

theorem dictGet_set_ne {V : Type} (k k' : String) (v : V) (h : k' ≠ k) :
    ∀ l, dictGet k (dictSet k' v l) = dictGet k l := by
  intro l
  induction l with
  | nil => simp [dictGet, dictSet, h]
  | cons p t ih =>
    obtain ⟨a, w⟩ := p
    by_cases ha : a = k'
    · subst ha
      simp [dictGet, dictSet, h]
    · simp [dictGet, dictSet, ha, ih]

theorem dictSet_set_self {V : Type} (k : String) (v w : V) :
    ∀ l, dictSet k v (dictSet k w l) = dictSet k v l := by
  intro l
  induction l with
  | nil => simp [dictSet]
  | cons p t ih =>
    obtain ⟨a, u⟩ := p
    by_cases ha : a = k
    · simp [dictSet, ha]
    · simp [dictSet, ha, ih]

theorem dictSet_get_some {V : Type} (k : String) (v : V) :
    ∀ l, dictGet k l = some v → dictSet k v l = l := by
  intro l
  induction l with
  | nil => intro h; exact Option.noConfusion h
  | cons p t ih =>
    obtain ⟨a, u⟩ := p
    intro h
    by_cases ha : a = k
    · simp only [dictGet, if_pos ha] at h
      simp [dictSet, ha, Option.some.inj h]
    · simp only [dictGet, if_neg ha] at h
      simp [dictSet, ha, ih h]

theorem dictDel_set_none {V : Type} (k : String) (v : V) :
    ∀ l, dictGet k l = none → dictDel k (dictSet k v l) = l := by
  intro l
  induction l with
  | nil => intro _; simp [dictSet, dictDel]
  | cons p t ih =>
    obtain ⟨a, u⟩ := p
    intro h
    by_cases ha : a = k
    · simp [dictGet, if_pos ha] at h
    · simp only [dictGet, if_neg ha] at h
      simp [dictSet, dictDel, ha, ih h]

theorem dictDel_set_ne {V : Type} (k k' : String) (w : V) (h : k ≠ k') :
    ∀ l, dictDel k (dictSet k' w l) = dictSet k' w (dictDel k l) := by
  intro l
  induction l with
  | nil => simp [dictSet, dictDel, Ne.symm h]
  | cons p t ih =>
    obtain ⟨a, u⟩ := p
    by_cases ha : a = k'
    · subst ha
      simp [dictSet, dictDel, Ne.symm h]
    · by_cases hak : a = k
      · subst hak
        simp [dictSet, dictDel, ha]
      · simp [dictSet, dictDel, ha, hak, ih]

theorem dictSet_set_comm {V : Type} (k k' : String) (v w : V) (h : k ≠ k') :
    ∀ l, (dictGet k l).isSome →
      dictSet k v (dictSet k' w l) = dictSet k' w (dictSet k v l) := by
  intro l
  induction l with
  | nil => intro hp; simp [dictGet] at hp
  | cons p t ih =>
    obtain ⟨a, u⟩ := p
    intro hp
    by_cases hak : a = k
    · subst hak
      simp [dictSet, h, Ne.symm h]
    · by_cases hak' : a = k'
      · subst hak'
        simp [dictSet, h, Ne.symm h]
      · simp only [dictGet, if_neg hak] at hp
        simp [dictSet, hak, hak', ih hp]

theorem dictGet_isSome_set {V : Type} (k k' : String) (w : V) (l : List (String × V))
    (hp : (dictGet k l).isSome) : (dictGet k (dictSet k' w l)).isSome := by
  by_cases h : k' = k
  · subst h; simp [dictGet_set_self]
  · rw [dictGet_set_ne k k' w h]; exact hp

/-- What the binding loop of `_visit_VarExpr` does to the symbol table,
with `vals` the freshly allocated slots. -/
def bindNames : List (String × Option Expr) → List Value →
    List (String × Value) → List (String × Value)
  | (n, _) :: bs, v :: vs, s => bindNames bs vs (dictSet n v s)
  | _, _, s => s

/-- The `old_bindings` list the binding loop collects. -/
def oldsOf : List (String × Option Expr) → List Value →
    List (String × Value) → List (Option Value)
  | (n, _) :: bs, v :: vs, s => dictGet n s :: oldsOf bs vs (dictSet n v s)
  | _, _, _ => []

theorem oldsOf_congr :
    ∀ (binds : List (String × Option Expr)) (vals : List Value)
      (s₁ s₂ : List (String × Value)),
      (∀ k ∈ binds.map Prod.fst, dictGet k s₁ = dictGet k s₂) →
      oldsOf binds vals s₁ = oldsOf binds vals s₂ := by
  intro binds
  induction binds with
  | nil => intro vals s₁ s₂ _; cases vals <;> rfl
  | cons b bs ih =>
    obtain ⟨n, i⟩ := b
    intro vals s₁ s₂ hh
    cases vals with
    | nil => rfl
    | cons v vs =>
      simp only [oldsOf]
      have htail : oldsOf bs vs (dictSet n v s₁) = oldsOf bs vs (dictSet n v s₂) := by
        apply ih
        intro k hk
        by_cases hkn : n = k
        · subst hkn; simp [dictGet_set_self]
        · rw [dictGet_set_ne k n v hkn, dictGet_set_ne k n v hkn]
          exact hh k (by simp [hk])
      rw [hh n (by simp), htail]

theorem bindNames_set_comm :
    ∀ (binds : List (String × Option Expr)) (vals : List Value)
      (x : String) (v : Value) (s : List (String × Value)),
      x ∉ binds.map Prod.fst → (dictGet x s).isSome →
      dictSet x v (bindNames binds vals s) = bindNames binds vals (dictSet x v s) := by
  intro binds
  induction binds with
  | nil => intro vals x v s _ _; cases vals <;> rfl
  | cons b bs ih =>
    obtain ⟨n, i⟩ := b
    intro vals x v s hx hp
    cases vals with
    | nil => rfl
    | cons w vs =>
      simp only [bindNames]
      have hxn : x ≠ n := by
        intro hh; exact hx (by simp [hh])
      have hxbs : x ∉ bs.map Prod.fst := by
        intro hh; exact hx (by simp [hh])
      rw [ih vs x v (dictSet n w s) hxbs (dictGet_isSome_set x n w s hp),
        dictSet_set_comm x n v w hxn s hp]

theorem bindNames_del_comm :
    ∀ (binds : List (String × Option Expr)) (vals : List Value)
      (x : String) (s : List (String × Value)),
      x ∉ binds.map Prod.fst →
      dictDel x (bindNames binds vals s) = bindNames binds vals (dictDel x s) := by
  intro binds
  induction binds with
  | nil => intro vals x s _; cases vals <;> rfl
  | cons b bs ih =>
    obtain ⟨n, i⟩ := b
    intro vals x s hx
    cases vals with
    | nil => rfl
    | cons w vs =>
      simp only [bindNames]
      have hxn : x ≠ n := by
        intro hh; exact hx (by simp [hh])
      have hxbs : x ∉ bs.map Prod.fst := by
        intro hh; exact hx (by simp [hh])
      rw [ih vs x (dictSet n w s) hxbs, dictDel_set_ne x n w hxn s]

/-- The forward-order restore loop undoes the binding loop exactly, when
the bound names are pairwise distinct. -/
theorem restore_bindNames :
    ∀ (binds : List (String × Option Expr)) (vals : List Value)
      (s : List (String × Value)),
      binds.length = vals.length →
      (binds.map Prod.fst).Nodup →
      restoreBindings binds (oldsOf binds vals s) (bindNames binds vals s) = s := by
  intro binds
  induction binds with
  | nil => intro vals s _ _; cases vals <;> rfl
  | cons b bs ih =>
    obtain ⟨x, i⟩ := b
    intro vals s hlen hnod
    cases vals with
    | nil => exact absurd hlen (by simp)
    | cons a vs =>
      rw [List.map_cons] at hnod
      obtain ⟨hxbs, hnod'⟩ := List.nodup_cons.mp hnod
      have hlen' : bs.length = vs.length := by simpa using hlen
      have holds : oldsOf bs vs (dictSet x a s) = oldsOf bs vs s := by
        apply oldsOf_congr
        intro k hk
        have hkx : x ≠ k := by
          intro hh; exact hxbs (hh ▸ hk)
        exact dictGet_set_ne k x a hkx s
      simp only [bindNames, oldsOf]
      cases ho : dictGet x s with
      | some v =>
        simp only [restoreBindings]
        rw [bindNames_set_comm bs vs x v (dictSet x a s) hxbs
            (by simp [dictGet_set_self]),
          dictSet_set_self, dictSet_get_some x v s ho, holds]
        exact ih vs s hlen' hnod'
      | none =>
        simp only [restoreBindings]
        rw [bindNames_del_comm bs vs x (dictSet x a s) hxbs,
          dictDel_set_none x a s ho, holds]
        exact ih vs s hlen' hnod'

/-- Successful emission of any expression whose VarIn nodes are
duplicate-free leaves the symbol table exactly as it was: expressions other
than For/VarIn never touch it, For saves and restores its loop variable,
and a duplicate-free VarIn's restore loop undoes its binding loop. -/
theorem emit_preserves (fuel : Nat) :
    (∀ (ops : OpTable) (e : Expr) (st : CGState) (v : Value) (st' : CGState),
      cleanVars e = true → emitExpr fuel ops e st = .ok (v, st') →
      st'.symtab = st.symtab) ∧
    (∀ (ops : OpTable) (es : List Expr) (st : CGState) (vs : List Value)
      (st' : CGState),
      cleanVarsList es = true → emitExprList fuel ops es st = .ok (vs, st') →
      st'.symtab = st.symtab) ∧
    (∀ (ops : OpTable) (binds : List (String × Option Expr)) (st : CGState)
      (olds : List (Option Value)) (st' : CGState),
      cleanVarsBinds binds = true → emitBindings fuel ops binds st = .ok (olds, st') →
      ∃ vals : List Value, binds.length = vals.length ∧
        st'.symtab = bindNames binds vals st.symtab ∧
        olds = oldsOf binds vals st.symtab) := by
  induction fuel with
  | zero =>
    refine ⟨?_, ?_, ?_⟩
    · intro ops e st v st' _ h
      simp only [emitExpr] at h
      exact Except.noConfusion h
    · intro ops es st vs st' _ h
      simp only [emitExprList] at h
      exact Except.noConfusion h
    · intro ops binds st olds st' _ h
      simp only [emitBindings] at h
      exact Except.noConfusion h
  | succ n ih =>
    obtain ⟨ih1, ih2, ih3⟩ := ih
    refine ⟨?_, ?_, ?_⟩
    · intro ops e st v st' hc h
      cases e with
      | NumberExpr val =>
        simp only [emitExpr] at h
        by_cases hv : pyFloatValid val = true
        · rw [if_pos hv] at h
          simp only [Except.ok.injEq, Prod.mk.injEq] at h
          rw [← h.2]
        · rw [if_neg hv] at h
          exact Except.noConfusion h
      | VariableExpr name =>
        simp only [emitExpr] at h
        cases hg : dictGet name st.symtab with
        | some w =>
          rw [hg] at h
          simp only [freshInstr, Except.ok.injEq, Prod.mk.injEq] at h
          rw [← h.2]
        | none =>
          rw [hg] at h
          exact Except.noConfusion h
      | BinaryExpr op l r =>
        simp only [cleanVars, Bool.and_eq_true] at hc
        obtain ⟨hcl, hcr⟩ := hc
        simp only [emitExpr] at h
        by_cases hop : op = "="
        · rw [if_pos hop] at h
          cases l with
          | VariableExpr lhsName =>
            cases hr : emitExpr n ops r st with
            | error e => rw [hr] at h; exact Except.noConfusion h
            | ok p =>
              obtain ⟨rv, st1⟩ := p
              rw [hr] at h
              simp only [Bind.bind, Except.bind] at h
              cases hlk : dictGet lhsName st1.symtab with
              | none => rw [hlk] at h; exact Except.noConfusion h
              | some w =>
                rw [hlk] at h
                simp only [Except.ok.injEq, Prod.mk.injEq] at h
                rw [← h.2]
                exact ih1 ops r st rv st1 hcr hr
          | NumberExpr val => exact Except.noConfusion h
          | VarExpr binds body => exact Except.noConfusion h
          | BinaryExpr op2 l2 r2 => exact Except.noConfusion h
          | UnaryExpr op2 o2 => exact Except.noConfusion h
          | CallExpr c2 a2 => exact Except.noConfusion h
          | IfExpr c2 t2 e2 => exact Except.noConfusion h
          | ForExpr i2 a2 b2 c2 d2 => exact Except.noConfusion h
        · rw [if_neg hop] at h
          cases hl : emitExpr n ops l st with
          | error e => rw [hl] at h; exact Except.noConfusion h
          | ok p =>
            obtain ⟨lv, st1⟩ := p
            rw [hl] at h
            simp only [Bind.bind, Except.bind] at h
            cases hr : emitExpr n ops r st1 with
            | error e => rw [hr] at h; exact Except.noConfusion h
            | ok q =>
              obtain ⟨rv, st2⟩ := q
              rw [hr] at h
              simp only [Bind.bind, Except.bind] at h
              have hst1 : st1.symtab = st.symtab := ih1 ops l st lv st1 hcl hl
              have hst2 : st2.symtab = st1.symtab := ih1 ops r st1 rv st2 hcr hr
              by_cases harith : op = "+" ∨ op = "-" ∨ op = "*"
              · rw [if_pos harith] at h
                simp only [freshInstr, Except.ok.injEq, Prod.mk.injEq] at h
                rw [← h.2]
                exact hst2.trans hst1
              · rw [if_neg harith] at h
                by_cases hlt : op = "<"
                · rw [if_pos hlt] at h
                  simp only [freshInstr, Except.ok.injEq, Prod.mk.injEq] at h
                  rw [← h.2]
                  exact hst2.trans hst1
                · rw [if_neg hlt] at h
                  by_cases hin : (dictGet op ops).isNone = true
                  · rw [if_pos hin] at h
                    exact Except.noConfusion h
                  · rw [if_neg hin] at h
                    cases hbg : dictGet ("binary" ++ op) st2.globals with
                    | none => rw [hbg] at h; exact Except.noConfusion h
                    | some g =>
                      rw [hbg] at h
                      simp only [freshInstr, Except.ok.injEq, Prod.mk.injEq] at h
                      rw [← h.2]
                      exact hst2.trans hst1
      | UnaryExpr op o =>
        simp only [cleanVars] at hc
        simp only [emitExpr] at h
        cases ho : emitExpr n ops o st with
        | error e => rw [ho] at h; exact Except.noConfusion h
        | ok p =>
          obtain ⟨ov, st1⟩ := p
          rw [ho] at h
          simp only [Bind.bind, Except.bind] at h
          cases hug : dictGet ("unary" ++ op) st1.globals with
          | none => rw [hug] at h; exact Except.noConfusion h
          | some g =>
            rw [hug] at h
            simp only [freshInstr, Except.ok.injEq, Prod.mk.injEq] at h
            rw [← h.2]
            exact ih1 ops o st ov st1 hc ho
      | IfExpr ce te ee =>
        simp only [cleanVars, Bool.and_eq_true] at hc
        obtain ⟨⟨hcc, hct⟩, hce⟩ := hc
        simp only [emitExpr] at h
        cases h1 : emitExpr n ops ce st with
        | error e => rw [h1] at h; exact Except.noConfusion h
        | ok p =>
          obtain ⟨cv, st1⟩ := p
          rw [h1] at h
          simp only [Bind.bind, Except.bind, freshInstr] at h
          cases h2 : emitExpr n ops te { st1 with fresh := st1.fresh + 1 } with
          | error e => rw [h2] at h; exact Except.noConfusion h
          | ok q =>
            obtain ⟨tv, st2⟩ := q
            rw [h2] at h
            simp only [Bind.bind, Except.bind] at h
            cases h3 : emitExpr n ops ee st2 with
            | error e => rw [h3] at h; exact Except.noConfusion h
            | ok r =>
              obtain ⟨ev, st3⟩ := r
              rw [h3] at h
              simp only [Except.ok.injEq, Prod.mk.injEq] at h
              rw [← h.2]
              have e1 : st1.symtab = st.symtab := ih1 ops ce st cv st1 hcc h1
              have e2 : st2.symtab = st1.symtab :=
                ih1 ops te { st1 with fresh := st1.fresh + 1 } tv st2 hct h2
              have e3 : st3.symtab = st2.symtab := ih1 ops ee st2 ev st3 hce h3
              calc st3.symtab = st2.symtab := e3
                _ = st1.symtab := e2
                _ = st.symtab := e1
      | ForExpr idName initE condE stepE bodyE =>
        simp only [cleanVars, Bool.and_eq_true] at hc
        obtain ⟨⟨⟨hci, hcc⟩, hcs⟩, hcb⟩ := hc
        simp only [emitExpr, createEntryBlockAlloca, freshInstr] at h
        cases h1 : emitExpr n ops initE { st with fresh := st.fresh + 1 } with
        | error e => rw [h1] at h; exact Except.noConfusion h
        | ok p =>
          obtain ⟨iv, st1⟩ := p
          rw [h1] at h
          simp only [Bind.bind, Except.bind] at h
          have e1 : st1.symtab = st.symtab :=
            ih1 ops initE { st with fresh := st.fresh + 1 } iv st1 hci h1
          cases h2 : emitExpr n ops bodyE
              { st1 with symtab := dictSet idName (Value.alloca st.fresh) st1.symtab } with
          | error e => rw [h2] at h; exact Except.noConfusion h
          | ok q =>
            obtain ⟨bv, st2⟩ := q
            rw [h2] at h
            simp only [Bind.bind, Except.bind] at h
            have e2 : st2.symtab = dictSet idName (Value.alloca st.fresh) st1.symtab :=
              ih1 ops bodyE _ bv st2 hcb h2
            cases stepE with
            | none =>
              dsimp only at h
              cases h4 : emitExpr n ops condE st2 with
              | error e => rw [h4] at h; exact Except.noConfusion h
              | ok w =>
                obtain ⟨cv, st4⟩ := w
                rw [h4] at h
                dsimp only at h
                have e4 : st4.symtab = st2.symtab := ih1 ops condE st2 cv st4 hcc h4
                have hsym : st4.symtab = dictSet idName (Value.alloca st.fresh) st.symtab := by
                  rw [e4, e2, e1]
                cases hold : dictGet idName st1.symtab with
                | none =>
                  rw [hold] at h
                  simp only [Except.ok.injEq, Prod.mk.injEq] at h
                  rw [← h.2]
                  have : dictDel idName st4.symtab = st.symtab := by
                    rw [hsym]
                    exact dictDel_set_none idName (Value.alloca st.fresh) st.symtab
                      (by rw [← e1]; exact hold)
                  exact this
                | some oldv =>
                  rw [hold] at h
                  simp only [Except.ok.injEq, Prod.mk.injEq] at h
                  rw [← h.2]
                  have : dictSet idName oldv st4.symtab = st.symtab := by
                    rw [hsym, dictSet_set_self]
                    exact dictSet_get_some idName oldv st.symtab (by rw [← e1]; exact hold)
                  exact this
            | some se =>
              simp only [cleanVarsOpt] at hcs
              dsimp only at h
              cases h3 : emitExpr n ops se st2 with
              | error e => rw [h3] at h; exact Except.noConfusion h
              | ok r =>
                obtain ⟨sv, st3⟩ := r
                rw [h3] at h
                dsimp only at h
                have e3 : st3.symtab = st2.symtab := ih1 ops se st2 sv st3 hcs h3
                cases h4 : emitExpr n ops condE st3 with
                | error e => rw [h4] at h; exact Except.noConfusion h
                | ok w =>
                  obtain ⟨cv, st4⟩ := w
                  rw [h4] at h
                  dsimp only at h
                  have e4 : st4.symtab = st3.symtab := ih1 ops condE st3 cv st4 hcc h4
                  have hsym : st4.symtab = dictSet idName (Value.alloca st.fresh) st.symtab := by
                    rw [e4, e3, e2, e1]
                  cases hold : dictGet idName st1.symtab with
                  | none =>
                    rw [hold] at h
                    simp only [Except.ok.injEq, Prod.mk.injEq] at h
                    rw [← h.2]
                    have : dictDel idName st4.symtab = st.symtab := by
                      rw [hsym]
                      exact dictDel_set_none idName (Value.alloca st.fresh) st.symtab
                        (by rw [← e1]; exact hold)
                    exact this
                  | some oldv =>
                    rw [hold] at h
                    simp only [Except.ok.injEq, Prod.mk.injEq] at h
                    rw [← h.2]
                    have : dictSet idName oldv st4.symtab = st.symtab := by
                      rw [hsym, dictSet_set_self]
                      exact dictSet_get_some idName oldv st.symtab (by rw [← e1]; exact hold)
                    exact this
      | VarExpr binds body =>
        simp only [cleanVars, Bool.and_eq_true] at hc
        obtain ⟨⟨hnod, hcbinds⟩, hcbody⟩ := hc
        simp only [emitExpr] at h
        cases h1 : emitBindings n ops binds st with
        | error e => rw [h1] at h; exact Except.noConfusion h
        | ok p =>
          obtain ⟨olds, st1⟩ := p
          rw [h1] at h
          simp only [Bind.bind, Except.bind] at h
          cases h2 : emitExpr n ops body st1 with
          | error e => rw [h2] at h; exact Except.noConfusion h
          | ok q =>
            obtain ⟨bv, st2⟩ := q
            rw [h2] at h
            simp only [Except.ok.injEq, Prod.mk.injEq] at h
            rw [← h.2]
            simp only
            obtain ⟨vals, hlen, hsym1, holds⟩ := ih3 ops binds st olds st1 hcbinds h1
            have e2 : st2.symtab = st1.symtab := ih1 ops body st1 bv st2 hcbody h2
            rw [e2, hsym1, holds]
            exact restore_bindNames binds vals st.symtab hlen
              (of_decide_eq_true hnod)
      | CallExpr callee args =>
        simp only [cleanVars] at hc
        simp only [emitExpr] at h
        cases hcg : dictGet callee st.globals with
        | none => rw [hcg] at h; exact Except.noConfusion h
        | some g =>
          rw [hcg] at h
          dsimp only at h
          by_cases hfn : g.isFunction = true
          · rw [if_neg (by simp [hfn])] at h
            by_cases har : g.arity = args.length
            · rw [if_neg (by simp [har])] at h
              cases ha : emitExprList n ops args st with
              | error e => rw [ha] at h; exact Except.noConfusion h
              | ok p =>
                obtain ⟨avs, st1⟩ := p
                rw [ha] at h
                simp only [Bind.bind, Except.bind, freshInstr, Except.ok.injEq,
                  Prod.mk.injEq] at h
                rw [← h.2]
                exact ih2 ops args st avs st1 hc ha
            · rw [if_pos (by simp [har])] at h
              exact Except.noConfusion h
          · rw [if_pos (by simp [hfn])] at h
            exact Except.noConfusion h
    · intro ops es st vs st' hc h
      cases es with
      | nil =>
        simp only [emitExprList, Except.ok.injEq, Prod.mk.injEq] at h
        rw [← h.2]
      | cons e rest =>
        simp only [cleanVarsList, Bool.and_eq_true] at hc
        obtain ⟨hce, hcr⟩ := hc
        simp only [emitExprList] at h
        cases h1 : emitExpr n ops e st with
        | error err => rw [h1] at h; exact Except.noConfusion h
        | ok p =>
          obtain ⟨v1, st1⟩ := p
          rw [h1] at h
          simp only [Bind.bind, Except.bind] at h
          cases h2 : emitExprList n ops rest st1 with
          | error err => rw [h2] at h; exact Except.noConfusion h
          | ok q =>
            obtain ⟨vrest, st2⟩ := q
            rw [h2] at h
            simp only [Except.ok.injEq, Prod.mk.injEq] at h
            rw [← h.2]
            exact (ih2 ops rest st1 vrest st2 hcr h2).trans
              (ih1 ops e st v1 st1 hce h1)
    · intro ops binds st olds st' hc h
      cases binds with
      | nil =>
        simp only [emitBindings, Except.ok.injEq, Prod.mk.injEq] at h
        refine ⟨[], by simp, ?_, ?_⟩
        · rw [← h.2]; rfl
        · rw [← h.1]; rfl
      | cons b rest =>
        obtain ⟨name, init⟩ := b
        simp only [cleanVarsBinds, Bool.and_eq_true] at hc
        obtain ⟨hci, hcr⟩ := hc
        simp only [emitBindings, createEntryBlockAlloca] at h
        cases init with
        | none =>
          simp only [Bind.bind, Except.bind] at h
          cases h2 : emitBindings n ops rest
              { globals := st.globals
              , symtab := dictSet name (Value.alloca st.fresh) st.symtab
              , fresh := st.fresh + 1 } with
          | error err => rw [h2] at h; exact Except.noConfusion h
          | ok q =>
            obtain ⟨oldsRest, st2⟩ := q
            rw [h2] at h
            simp only [Except.ok.injEq, Prod.mk.injEq] at h
            obtain ⟨vals, hlen, hsym, holds⟩ := ih3 ops rest _ oldsRest st2 hcr h2
            refine ⟨Value.alloca st.fresh :: vals, by simp [hlen], ?_, ?_⟩
            · rw [← h.2, hsym]
              rfl
            · rw [← h.1, holds]
              rfl
        | some ie =>
          simp only [cleanVarsOpt] at hci
          simp only [Bind.bind, Except.bind] at h
          cases h1 : emitExpr n ops ie st with
          | error err => rw [h1] at h; exact Except.noConfusion h
          | ok p =>
            obtain ⟨iv, st1⟩ := p
            rw [h1] at h
            dsimp only at h
            have e1 : st1.symtab = st.symtab := ih1 ops ie st iv st1 hci h1
            cases h2 : emitBindings n ops rest
                { globals := st1.globals
                , symtab := dictSet name (Value.alloca st1.fresh) st1.symtab
                , fresh := st1.fresh + 1 } with
            | error err => rw [h2] at h; exact Except.noConfusion h
            | ok q =>
              obtain ⟨oldsRest, st2⟩ := q
              rw [h2] at h
              dsimp only at h
              simp only [Except.ok.injEq, Prod.mk.injEq] at h
              obtain ⟨vals, hlen, hsym, holds⟩ := ih3 ops rest _ oldsRest st2 hcr h2
              refine ⟨Value.alloca st1.fresh :: vals, by simp [hlen], ?_, ?_⟩
              · rw [← h.2, hsym]
                simp only [bindNames]
                rw [e1]
              · rw [← h.1, holds]
                simp only [oldsOf]
                rw [e1]

/-- C5 amended: successful emission of a For or VarIn expression restores
the per-function symbol table exactly, provided every VarIn in the
expression introduces pairwise-distinct names (the theorem holds for every
expression, For and VarIn included; the duplicate-name case is the
counterexample). -/
theorem c5_scope_restoration (fuel : Nat) (ops : OpTable) (e : Expr)
    (st : CGState) (v : Value) (st' : CGState)
    (hclean : cleanVars e = true) (h : emitExpr fuel ops e st = .ok (v, st')) :
    st'.symtab = st.symtab :=
  (emit_preserves fuel).1 ops e st v st' hclean h

/-- Witness for C5 amended: `var a = 1, b in a` emitted from the built-ins
state (empty symbol table) succeeds and leaves the symbol table empty. -/
theorem c5_scope_restoration_witness :
    ({ globals := builtInsState.globals, symtab := [], fresh := 5 } :
      CGState).symtab = builtInsState.symtab :=
  c5_scope_restoration 10 operators
    (Expr.VarExpr [("a", some (Expr.NumberExpr "1")), ("b", none)]
      (Expr.VariableExpr "a"))
    builtInsState (Value.instr 4)
    { globals := builtInsState.globals, symtab := [], fresh := 5 }
    (by simp [cleanVars, cleanVarsBinds, cleanVarsOpt]) rfl

/-- C5 counterexample: a VarIn that introduces the same name twice does not
restore the symbol table: starting from an empty table, emitting
`var x = 1, x = 2 in x` succeeds but leaves `x` bound to the first slot. -/
theorem c5_duplicate_varin_corrupts_symtab :
    emitExpr 32 operators
        (Expr.VarExpr
          [("x", some (Expr.NumberExpr "1")), ("x", some (Expr.NumberExpr "2"))]
          (Expr.VariableExpr "x"))
        builtInsState =
      .ok (Value.instr 4,
        { globals := builtInsState.globals
        , symtab := [("x", Value.alloca 2)]
        , fresh := 5 }) ∧
    [("x", Value.alloca 2)] ≠ builtInsState.symtab :=
  ⟨rfl, by decide⟩

/-- C9: precedence climbing.  For operators op1 = t1.value and
op2 = t2.value present in the operator table (positive precedences p1, p2)
and unary-parseable segments a, b, c (each hypothesis says the segment
parses at every sufficiently large fuel, leaving the next operator token
as the lookahead; the terminator tEnd has non-operator precedence), the
expression `a op1 b op2 c` parses as Binary(op2, Binary(op1, a, b), c)
when p2 ≤ p1 (left-associative fold) and as
Binary(op1, a, Binary(op2, b, c)) when p1 < p2. -/
theorem c9_precedence_climbing
    (n : Nat) (hn : 1 ≤ n) (ops : OpTable)
    (t1 t2 tEnd : Token) (p1 p2 : Int)
    (hp1 : get_precedence ops t1.value = p1)
    (hp2 : get_precedence ops t2.value = p2)
    (h1p : 1 ≤ p1) (h2p : 1 ≤ p2)
    (hend : get_precedence ops tEnd.value < 0)
    (a b c : Expr) (c₀ c₁ c₂ : Token) (r₀ r₁ r₂ r₃ : List Token)
    (h1 : ∀ m, n ≤ m → parseUnary m ops c₀ r₀ = .ok (a, t1, c₁ :: r₁))
    (h2 : ∀ m, n ≤ m → parseUnary m ops c₁ r₁ = .ok (b, t2, c₂ :: r₂))
    (h3 : ∀ m, n ≤ m → parseUnary m ops c₂ r₂ = .ok (c, tEnd, r₃)) :
    (p2 ≤ p1 →
      parseExpression (n + 3) ops c₀ r₀ =
        .ok (Expr.BinaryExpr t2.value (Expr.BinaryExpr t1.value a b) c, tEnd, r₃)) ∧
    (p1 < p2 →
      parseExpression (n + 3) ops c₀ r₀ =
        .ok (Expr.BinaryExpr t1.value a (Expr.BinaryExpr t2.value b c), tEnd, r₃)) := by
  have hEnd : ∀ (g : Nat), 1 ≤ g → ∀ (q : Int) (lhs : Expr),
      get_precedence ops tEnd.value < q →
      parseBinOpRhs g ops q lhs tEnd r₃ = .ok (lhs, tEnd, r₃) := by
    intro g hg q lhs hq
    obtain ⟨g', rfl⟩ : ∃ g', g = g' + 1 := ⟨g - 1, by omega⟩
    simp only [parseBinOpRhs]
    rw [if_pos hq]
  have hMid : ∀ (g : Nat), n + 1 ≤ g → ∀ (q : Int) (lhs : Expr),
      ¬p2 < q → get_precedence ops tEnd.value < q →
      parseBinOpRhs g ops q lhs t2 (c₂ :: r₂) =
        .ok (Expr.BinaryExpr t2.value lhs c, tEnd, r₃) := by
    intro g hg q lhs hq1 hq2
    obtain ⟨g', rfl⟩ : ∃ g', g = g' + 1 := ⟨g - 1, by omega⟩
    simp only [parseBinOpRhs, hp2, eatTok, Bind.bind, Except.bind]
    rw [if_neg hq1, h3 g' (by omega)]
    dsimp only
    rw [if_neg (by omega : ¬p2 < get_precedence ops tEnd.value)]
    exact hEnd g' (by omega) q (Expr.BinaryExpr t2.value lhs c) hq2
  have hTop : ∀ (g : Nat), n + 2 ≤ g →
      parseBinOpRhs g ops 0 a t1 (c₁ :: r₁) =
        (if p1 < p2 then
          .ok (Expr.BinaryExpr t1.value a (Expr.BinaryExpr t2.value b c), tEnd, r₃)
        else
          .ok (Expr.BinaryExpr t2.value (Expr.BinaryExpr t1.value a b) c, tEnd, r₃)) := by
    intro g hg
    obtain ⟨g', rfl⟩ : ∃ g', g = g' + 1 := ⟨g - 1, by omega⟩
    simp only [parseBinOpRhs, hp1, hp2, eatTok, Bind.bind, Except.bind]
    rw [if_neg (by omega : ¬p1 < 0), h2 g' (by omega)]
    dsimp only
    rw [hp2]
    by_cases hcmp : p1 < p2
    · rw [if_pos hcmp, if_pos hcmp]
      rw [hMid g' (by omega) (p1 + 1) b (by omega) (by omega)]
      dsimp only
      exact hEnd g' (by omega) 0
        (Expr.BinaryExpr t1.value a (Expr.BinaryExpr t2.value b c)) (by omega)
    · rw [if_neg hcmp, if_neg hcmp]
      exact hMid g' (by omega) 0 (Expr.BinaryExpr t1.value a b) (by omega) (by omega)
  constructor
  · intro hle
    simp only [parseExpression, Bind.bind, Except.bind]
    rw [h1 (n + 2) (by omega)]
    dsimp only
    rw [hTop (n + 2) (by omega), if_neg (by omega : ¬p1 < p2)]
  · intro hlt
    simp only [parseExpression, Bind.bind, Except.bind]
    rw [h1 (n + 2) (by omega)]
    dsimp only
    rw [hTop (n + 2) (by omega), if_pos hlt]

/-- Witness for C9: `x + y * z` with the initial table (`+` at 20, `*` at
40, so the strictly-greater branch nests to the right). -/
theorem c9_precedence_climbing_witness :
    parseExpression 6 operators ⟨TokenType.IDENTIFIER, "x"⟩
        [ ⟨TokenType.OPERATOR, "+"⟩, ⟨TokenType.IDENTIFIER, "y"⟩
        , ⟨TokenType.OPERATOR, "*"⟩, ⟨TokenType.IDENTIFIER, "z"⟩
        , ⟨TokenType.EOF, ""⟩ ] =
      .ok (Expr.BinaryExpr "+" (Expr.VariableExpr "x")
             (Expr.BinaryExpr "*" (Expr.VariableExpr "y") (Expr.VariableExpr "z")),
           ⟨TokenType.EOF, ""⟩, []) := by
  have h1 : ∀ m, 3 ≤ m → parseUnary m operators ⟨TokenType.IDENTIFIER, "x"⟩
      [ ⟨TokenType.OPERATOR, "+"⟩, ⟨TokenType.IDENTIFIER, "y"⟩
      , ⟨TokenType.OPERATOR, "*"⟩, ⟨TokenType.IDENTIFIER, "z"⟩
      , ⟨TokenType.EOF, ""⟩ ] =
      .ok (Expr.VariableExpr "x", ⟨TokenType.OPERATOR, "+"⟩,
        ⟨TokenType.IDENTIFIER, "y"⟩ ::
          [⟨TokenType.OPERATOR, "*"⟩, ⟨TokenType.IDENTIFIER, "z"⟩,
            ⟨TokenType.EOF, ""⟩]) := by
    intro m hm
    obtain ⟨j, rfl⟩ : ∃ j, m = j + 3 := ⟨m - 3, by omega⟩
    rfl
  have h2 : ∀ m, 3 ≤ m → parseUnary m operators ⟨TokenType.IDENTIFIER, "y"⟩
      [ ⟨TokenType.OPERATOR, "*"⟩, ⟨TokenType.IDENTIFIER, "z"⟩
      , ⟨TokenType.EOF, ""⟩ ] =
      .ok (Expr.VariableExpr "y", ⟨TokenType.OPERATOR, "*"⟩,
        ⟨TokenType.IDENTIFIER, "z"⟩ :: [⟨TokenType.EOF, ""⟩]) := by
    intro m hm
    obtain ⟨j, rfl⟩ : ∃ j, m = j + 3 := ⟨m - 3, by omega⟩
    rfl
  have h3 : ∀ m, 3 ≤ m → parseUnary m operators ⟨TokenType.IDENTIFIER, "z"⟩
      [⟨TokenType.EOF, ""⟩] =
      .ok (Expr.VariableExpr "z", ⟨TokenType.EOF, ""⟩, []) := by
    intro m hm
    obtain ⟨j, rfl⟩ : ∃ j, m = j + 3 := ⟨m - 3, by omega⟩
    rfl
  exact (c9_precedence_climbing 3 (by omega) operators
    ⟨TokenType.OPERATOR, "+"⟩ ⟨TokenType.OPERATOR, "*"⟩ ⟨TokenType.EOF, ""⟩
    20 40 rfl rfl (by omega) (by omega) (by decide)
    (Expr.VariableExpr "x") (Expr.VariableExpr "y") (Expr.VariableExpr "z")
    ⟨TokenType.IDENTIFIER, "x"⟩ ⟨TokenType.IDENTIFIER, "y"⟩
    ⟨TokenType.IDENTIFIER, "z"⟩
    [ ⟨TokenType.OPERATOR, "+"⟩, ⟨TokenType.IDENTIFIER, "y"⟩
    , ⟨TokenType.OPERATOR, "*"⟩, ⟨TokenType.IDENTIFIER, "z"⟩
    , ⟨TokenType.EOF, ""⟩ ]
    [⟨TokenType.OPERATOR, "*"⟩, ⟨TokenType.IDENTIFIER, "z"⟩, ⟨TokenType.EOF, ""⟩]
    [⟨TokenType.EOF, ""⟩] []
    h1 h2 h3).2 (by omega)

/-- C6 counterexample: with the `parseonly` option, `eval_expr` returns a
string (the AST dump), not a double and not null, so the claimed
"double or null for every options map" fails. -/

theorem c6_parseonly_value_is_string :
    evalExpr 32 operators 0 builtInsState "1" { parseonly := true } =
      .ok EvalValueKind.str ∧
    evalExpr 32 operators 0 builtInsState "1" { noexec := true } =
      .ok EvalValueKind.str ∧
    EvalValueKind.str ≠ EvalValueKind.double ∧
    EvalValueKind.str ≠ EvalValueKind.null :=
  ⟨rfl, rfl, by decide, by decide⟩

/-- C7 counterexample: tokenization is claimed never to fail, including on
the empty string; in fact `Lexer.__init__` asserts a nonempty source, so
the empty string raises `AssertionError`. -/
theorem c7_empty_source_fails :
    tokens "" = none :=
  rfl

/-- C8: a maximal identifier lexeme is claimed to start with an ASCII
letter or underscore; in fact the identifier rule is entered only on
`isalpha()`, so `_x` lexes as an OPERATOR token `_` followed by the
identifier `x` (contradicting the source's own `[_a-zA-Z][_a-zA-Z0-9]*`
comment), while underscores inside identifiers and the keyword mapping
behave as claimed. -/
theorem c8_underscore_cannot_start_identifier :
    tokens "_x" =
      some [⟨TokenType.OPERATOR, "_"⟩, ⟨TokenType.IDENTIFIER, "x"⟩,
            ⟨TokenType.EOF, ""⟩] ∧
    tokens "x_1" = some [⟨TokenType.IDENTIFIER, "x_1"⟩, ⟨TokenType.EOF, ""⟩] ∧
    tokens "def extern if then else for in var binary unary" =
      some [ ⟨TokenType.DEF, "def"⟩, ⟨TokenType.EXTERN, "extern"⟩
           , ⟨TokenType.IF, "if"⟩, ⟨TokenType.THEN, "then"⟩
           , ⟨TokenType.ELSE, "else"⟩, ⟨TokenType.FOR, "for"⟩
           , ⟨TokenType.IN, "in"⟩, ⟨TokenType.VAR, "var"⟩
           , ⟨TokenType.BINARY, "binary"⟩, ⟨TokenType.UNARY, "unary"⟩
           , ⟨TokenType.EOF, ""⟩ ] :=
  ⟨rfl, rfl, rfl⟩

/-- The replay loop never writes the operator table: operator installation
happens only in the parser, and `reset` replays AST nodes through the
emitter without re-parsing. -/
theorem replayHistory_ops_unchanged (fuel : Nat) (ops : OpTable) :
    ∀ (h : List Node) (st : CGState) (b : Bool) (ops' : OpTable) (st' : CGState),
      replayHistory fuel ops h st = .ok (b, ops', st') → ops' = ops := by
  intro h
  induction h with
  | nil =>
    intro st b ops' st' hr
    simp only [replayHistory, Except.ok.injEq, Prod.mk.injEq] at hr
    exact hr.2.1.symm
  | cons ast rest ih =>
    intro st b ops' st' hr
    simp only [replayHistory] at hr
    cases hv : evalAst fuel ops ast {} st with
    | ok r => rw [hv] at hr; exact ih _ _ _ _ hr
    | error e =>
      rw [hv] at hr
      cases e with
      | generateCodeError msg =>
        simp only [Except.ok.injEq, Prod.mk.injEq] at hr
        exact hr.2.1.symm
      | keyError k => exact Except.noConfusion hr
      | valueError l => exact Except.noConfusion hr
      | assertionError => exact Except.noConfusion hr
      | outOfFuel => exact Except.noConfusion hr

/-- C10 amended: `reset(history)` rebuilds the module from the built-ins
and the replayed history, but leaves the operator table exactly as it was:
whenever `reset` returns (success or failure flag alike), the operator
table afterwards equals the table before, so operators registered before
the reset survive and none are reinstalled from the history. -/
theorem c10_reset_leaves_operator_table (fuel : Nat) (ops : OpTable)
    (history : Option (List Node)) (b : Bool) (ops' : OpTable) (st' : CGState)
    (h : reset fuel ops history = .ok (b, ops', st')) :
    ops' = ops := by
  cases history with
  | none =>
    simp only [reset, Except.ok.injEq, Prod.mk.injEq] at h
    exact h.2.1.symm
  | some hist =>
    simp only [reset] at h
    exact replayHistory_ops_unchanged fuel ops hist builtInsState b ops' st' h

/-- Witness for C10 amended: a reset with a registered `%` operator and a
one-extern history succeeds, and the theorem applies to it. -/
theorem c10_reset_leaves_operator_table_witness :
    reset 8 (dictSet "%" ⟨Associativity.NON, 30⟩ operators)
        (some [Node.proto ⟨"f", ["x"], false, 30⟩]) =
      .ok (true, dictSet "%" ⟨Associativity.NON, 30⟩ operators,
        { globals := dictSet "f" ⟨true, 1, true⟩ builtInsState.globals
        , symtab := [("x", Value.arg "f" 0)]
        , fresh := 2 }) ∧
    dictSet "%" ⟨Associativity.NON, 30⟩ operators =
      dictSet "%" ⟨Associativity.NON, 30⟩ operators := by
  have hres : reset 8 (dictSet "%" ⟨Associativity.NON, 30⟩ operators)
      (some [Node.proto ⟨"f", ["x"], false, 30⟩]) =
    .ok (true, dictSet "%" ⟨Associativity.NON, 30⟩ operators,
      { globals := dictSet "f" ⟨true, 1, true⟩ builtInsState.globals
      , symtab := [("x", Value.arg "f" 0)]
      , fresh := 2 }) := rfl
  exact ⟨hres, c10_reset_leaves_operator_table 8 _ _ _ _ _ hres⟩

/-- C6 amended: the first top-level result's `value` is a double for a
JIT-executed anonymous wrapper and null for a definition or extern
declaration, except that the `parseonly` and `noexec` options make it a
string (the AST dump resp. the unoptimized IR text). -/
theorem c6_value_kinds (fuel : Nat) (ops : OpTable) (ast : Node)
    (opts : Options) (st : CGState) (k : EvalValueKind) (st' : CGState)
    (h : evalAst fuel ops ast opts st = .ok (k, st')) :
    k = if opts.parseonly || opts.noexec then EvalValueKind.str
        else if isDefOrExtern ast then EvalValueKind.null
        else EvalValueKind.double := by
  unfold evalAst at h
  by_cases hp : opts.parseonly = true
  · rw [if_pos hp] at h
    simp only [Except.ok.injEq, Prod.mk.injEq] at h
    simp [hp, h.1.symm]
  · rw [if_neg hp] at h
    cases hg : generateCode fuel ops ast st with
    | error e =>
      rw [hg] at h
      simp only [Bind.bind, Except.bind] at h
      exact Except.noConfusion h
    | ok st1 =>
      rw [hg] at h
      simp only [Bind.bind, Except.bind] at h
      by_cases hne : opts.noexec = true
      · rw [if_pos hne] at h
        simp only [Except.ok.injEq, Prod.mk.injEq] at h
        simp [hp, hne, h.1.symm]
      · rw [if_neg hne] at h
        by_cases hde : isDefOrExtern ast = true
        · by_cases hop : opts.optimize = true
          · rw [if_neg (by simp [hop]), if_pos hde] at h
            simp only [Except.ok.injEq, Prod.mk.injEq] at h
            simp [hp, hne, hde, h.1.symm]
          · rw [if_pos (by simp [hde, hop])] at h
            simp only [Except.ok.injEq, Prod.mk.injEq] at h
            simp [hp, hne, hde, h.1.symm]
        · rw [if_neg (by simp [hde]), if_neg hde] at h
          simp only [Except.ok.injEq, Prod.mk.injEq] at h
          simp [hp, hne, hde, h.1.symm]

/-- Witness for C6 amended: an extern declaration evaluated with default
options yields a null value, as the theorem computes. -/
theorem c6_value_kinds_witness :
    EvalValueKind.null =
      (if (Options.mk true false false false false).parseonly ||
          (Options.mk true false false false false).noexec then EvalValueKind.str
       else if isDefOrExtern (Node.proto ⟨"g", [], false, 30⟩) then EvalValueKind.null
       else EvalValueKind.double) :=
  c6_value_kinds 8 operators (Node.proto ⟨"g", [], false, 30⟩)
    (Options.mk true false false false false) builtInsState EvalValueKind.null
    { globals := dictSet "g" ⟨true, 0, true⟩ builtInsState.globals
    , symtab := [], fresh := 2 } rfl

/-- C3 amended: the failures the emitter raises itself are structured
`GenerateCodeError`s, but the two cited sites fail with unstructured
Python exceptions: emitting an assignment whose left-hand variable is not
in the symbol table raises `KeyError` (the bare `self.symtab[...]`
subscript), and emitting a `Number` whose lexeme is not a valid double
raises `ValueError` (from `float()`). -/
theorem c3_unstructured_error_sites (fuel : Nat) (ops : OpTable)
    (st : CGState) (x lex : String)
    (hx : dictGet x st.symtab = none) (hlex : pyFloatValid lex = false) :
    emitExpr (fuel + 2) ops
        (Expr.BinaryExpr "=" (Expr.VariableExpr x) (Expr.NumberExpr "1")) st =
      .error (.keyError x) ∧
    emitExpr (fuel + 1) ops (Expr.NumberExpr lex) st =
      .error (.valueError lex) := by
  constructor
  · simp only [emitExpr]
    rw [if_pos (show pyFloatValid "1" = true from rfl)]
    simp [Bind.bind, Except.bind, hx]
  · simp [emitExpr, hlex]

/-- Witness for C3 amended: the two unstructured failures at concrete
inputs. -/
theorem c3_unstructured_error_sites_witness :
    emitExpr 2 operators
        (Expr.BinaryExpr "=" (Expr.VariableExpr "y") (Expr.NumberExpr "1"))
        builtInsState =
      .error (.keyError "y") ∧
    emitExpr 1 operators (Expr.NumberExpr "12.3.4") builtInsState =
      .error (.valueError "12.3.4") :=
  c3_unstructured_error_sites 0 operators builtInsState "y" "12.3.4" rfl (by decide)

theorem dropWhile_length_le (p : Char → Bool) :
    ∀ l : List Char, (l.dropWhile p).length ≤ l.length := by
  intro l
  induction l with
  | nil => simp [List.dropWhile]
  | cons c t ih =>
    by_cases hc : p c = true
    · simp only [List.dropWhile, hc]
      exact Nat.le_succ_of_le ih
    · simp only [List.dropWhile, hc]
      simp

/-- A binding found by `dictGet` is a member of the association list. -/
theorem dictGet_mem {V : Type} (k : String) (v : V) :
    ∀ l : List (String × V), dictGet k l = some v → (k, v) ∈ l := by
  intro l
  induction l with
  | nil => intro h; exact Option.noConfusion h
  | cons p t ih =>
    intro h
    obtain ⟨a, w⟩ := p
    by_cases ha : a = k
    · simp only [dictGet, if_pos ha] at h
      subst ha
      exact (Option.some.inj h) ▸ List.mem_cons_self _ _
    · simp only [dictGet, if_neg ha] at h
      exact List.mem_cons_of_mem _ (ih h)

theorem keyword_token_not_eof (s : String) (t : Token)
    (h : dictGet s keywords = some t) : t.type ≠ TokenType.EOF := by
  have hm := dictGet_mem s t keywords h
  fin_cases hm <;> decide

/-- Every run of `lexAux` with fuel exceeding the character count ends in
exactly one EOF token, which is the last element. -/
theorem lexAux_one_eof :
    ∀ (fuel : Nat) (cs : List Char), cs.length < fuel →
      ∃ pre, lexAux fuel cs = pre ++ [⟨TokenType.EOF, ""⟩] ∧
        ∀ t ∈ pre, t.type ≠ TokenType.EOF := by
  intro fuel
  induction fuel with
  | zero => intro cs h; exact absurd h (Nat.not_lt_zero _)
  | succ n ih =>
    intro cs h
    match cs with
    | [] => exact ⟨[], rfl, by simp⟩
    | c₀ :: cs₀ =>
      have hlen : cs₀.length + 1 ≤ n := Nat.lt_succ_iff.mp h
      cases hd : (c₀ :: cs₀).dropWhile pyIsSpace with
      | nil =>
        refine ⟨[], ?_, by simp⟩
        simp only [lexAux, hd]
        rfl
      | cons c cs =>
        have hdlen : cs.length + 1 ≤ cs₀.length + 1 := by
          have := dropWhile_length_le pyIsSpace (c₀ :: cs₀)
          rw [hd] at this
          simpa using this
        have hcs : cs.length < n := by omega
        by_cases ha : pyIsAlpha c = true
        · have hcont : isIdentCont c = true := by
            simp [isIdentCont, pyIsAlnum, ha]
          have hrest : ((c :: cs).dropWhile isIdentCont).length < n := by
            have : (c :: cs).dropWhile isIdentCont = cs.dropWhile isIdentCont := by
              simp [List.dropWhile, hcont]
            rw [this]
            exact Nat.lt_of_le_of_lt (dropWhile_length_le _ cs) hcs
          obtain ⟨pre, hpre, hall⟩ := ih _ hrest
          refine ⟨(match dictGet (String.mk ((c :: cs).takeWhile isIdentCont)) keywords with
            | some kw => kw
            | none => ⟨TokenType.IDENTIFIER, String.mk ((c :: cs).takeWhile isIdentCont)⟩) :: pre,
            ?_, ?_⟩
          · simp only [lexAux, hd]
            rw [if_pos ha, hpre]
            rfl
          · intro t ht
            rcases List.mem_cons.mp ht with rfl | hmem
            · cases hkw : dictGet (String.mk ((c :: cs).takeWhile isIdentCont)) keywords with
              | some kw => simp only [hkw]; exact keyword_token_not_eof _ _ hkw
              | none => simp only [hkw]; simp
            · exact hall t hmem
        · by_cases hnum : isNumCont c = true
          · have hrest : ((c :: cs).dropWhile isNumCont).length < n := by
              have : (c :: cs).dropWhile isNumCont = cs.dropWhile isNumCont := by
                simp [List.dropWhile, hnum]
              rw [this]
              exact Nat.lt_of_le_of_lt (dropWhile_length_le _ cs) hcs
            obtain ⟨pre, hpre, hall⟩ := ih _ hrest
            refine ⟨⟨TokenType.NUMBER, String.mk ((c :: cs).takeWhile isNumCont)⟩ :: pre, ?_, ?_⟩
            · simp only [lexAux, hd]
              rw [if_neg ha, if_pos hnum, hpre]
              rfl
            · intro t ht
              rcases List.mem_cons.mp ht with rfl | hmem
              · simp
              · exact hall t hmem
          · by_cases hcom : c = '#'
            · have hrest : (cs.dropWhile fun d => d ≠ '\r' && d ≠ '\n').length < n :=
                Nat.lt_of_le_of_lt (dropWhile_length_le _ cs) hcs
              obtain ⟨pre, hpre, hall⟩ := ih _ hrest
              refine ⟨pre, ?_, hall⟩
              simp only [lexAux, hd]
              rw [if_neg ha, if_neg hnum, if_pos hcom]
              exact hpre
            · obtain ⟨pre, hpre, hall⟩ := ih _ hcs
              refine ⟨⟨TokenType.OPERATOR, String.mk [c]⟩ :: pre, ?_, ?_⟩
              · simp only [lexAux, hd]
                rw [if_neg ha, if_neg hnum, if_neg hcom, hpre]
                rfl
              · intro t ht
                rcases List.mem_cons.mp ht with rfl | hmem
                · simp
                · exact hall t hmem

/-- C7 amended: for every non-empty source string tokenization never
fails; the token list ends with exactly one EOF token, and a
non-whitespace head character matched by no earlier rule (not a letter,
not a digit or dot, not the comment character) is emitted as exactly one
single-character OPERATOR token. -/
theorem c7_lexer_total_one_eof (s : String) (hs : s ≠ "") :
    (∃ pre, tokens s = some (pre ++ [⟨TokenType.EOF, ""⟩]) ∧
      ∀ t ∈ pre, t.type ≠ TokenType.EOF) ∧
    (∀ (c : Char) (cs : List Char) (fuel : Nat),
      pyIsSpace c = false → pyIsAlpha c = false → isNumCont c = false →
      c ≠ '#' →
      lexAux (fuel + 1) (c :: cs) =
        ⟨TokenType.OPERATOR, String.mk [c]⟩ :: lexAux fuel cs) := by
  constructor
  · have hdata : s.data ≠ [] := by
      intro hnil
      apply hs
      cases s with
      | mk data => exact congrArg String.mk hnil
    obtain ⟨pre, hpre, hall⟩ := lexAux_one_eof (s.data.length + 1) s.data (by omega)
    refine ⟨pre, ?_, hall⟩
    simp only [tokens, if_neg hdata, hpre]
  · intro c cs fuel hsp hal hnc hcom
    have hd : (c :: cs).dropWhile pyIsSpace = c :: cs := by
      simp [List.dropWhile, hsp]
    simp only [lexAux, hd]
    rw [if_neg (by simp [hal]), if_neg (by simp [hnc]), if_neg hcom]

/-- Witness for C7 amended: the single-character source `@`. -/
theorem c7_lexer_total_one_eof_witness :
    ∃ pre, tokens "@" = some (pre ++ [⟨TokenType.EOF, ""⟩]) ∧
      ∀ t ∈ pre, t.type ≠ TokenType.EOF :=
  (c7_lexer_total_one_eof "@" (by decide)).1

/-- C10 counterexample: `reset` is claimed to reset the operator table
together with the module; in fact a user-registered operator (`%`, as
installed by parsing `def binary% ...`) survives a reset with an empty
history unchanged. -/
theorem c10_reset_keeps_registered_operator :
    reset 32 (dictSet "%" ⟨Associativity.NON, 30⟩ operators) (some []) =
      .ok (true, dictSet "%" ⟨Associativity.NON, 30⟩ operators, builtInsState) ∧
    dictGet "%" (dictSet "%" ⟨Associativity.NON, 30⟩ operators) =
      some ⟨Associativity.NON, 30⟩ :=
  ⟨rfl, rfl⟩

end Kaleidoscopy
